import Mathlib

/-!
Shallow embedding of the availability/booking consistency engine of the
BookTable restaurant-reservation application.

The embedded code consists of:
* `createBooking` — the booking-creation controller (identical logic in both
  observed revisions of the booking controller file), split into a read phase
  (`createRead`: validation, restaurant lookup, date-availability lookup and
  table matching) and a write phase (`createWrite`: persist the booking, write
  back the mutated availability array, bump the daily counter), mirroring the
  await boundaries of the source.
* `cancelBookingV1` — the first observed revision of `cancelBooking`
  (owner-or-admin authorization, distinct already-cancelled error, slot pushed
  back without dedup or sort, date compared via server-local `YYYY-MM-DD`
  formatting).
* `cancelBookingV2` — the second observed revision of `cancelBooking`
  (lookup restricted to the requester's own non-cancelled bookings, merged
  404 error, slot pushed back with a duplicate guard and a chronological
  re-sort, date compared via UTC day).
* `searchRestaurants` — the restaurant search controller (location filter,
  ±30-minute tolerance window in HH:mm string space, party-size filter that
  degrades to no-op on invalid input, exact `$eq` date comparison).

Timestamps are modelled as integer minutes since the epoch; a calendar day is
1440 minutes.  Time-of-day values are the literal `HH:mm` strings of the wire
format.  JavaScript-specific behaviour that the control flow depends on
(truthiness of request fields, `parseInt`) is modelled explicitly.
-/

/-- Minutes-since-epoch timestamp mapped to its UTC calendar day, as done by
`moment(x).utc().format('YYYY-MM-DD')` (floor division by the 1440 minutes of
a day). -/
def utcDay (t : Int) : Int := t.fdiv 1440

/-- Calendar day of a timestamp in server-local time with fixed offset `tz`
minutes, as done by `moment(x).format('YYYY-MM-DD')` without `.utc()`. -/
def localDay (tz t : Int) : Int := (t + tz).fdiv 1440

/-- UTC start of day of a timestamp, as `moment(x).utc().startOf('day')`. -/
def utcStartOfDay (t : Int) : Int := utcDay t * 1440

/-- Numeric value of a decimal digit string (helper for `jsParseInt`). -/
def decDigitsVal (l : List Char) : Nat :=
  l.foldl (fun a c => a * 10 + (c.toNat - 48)) 0

/-- Is a character JavaScript whitespace (for the leading trim of
`parseInt`)? -/
def jsSpace (c : Char) : Bool := c == ' ' || c == '\t' || c == '\n' || c == '\r'

/-- JavaScript `parseInt(s, 10)`: skip leading whitespace, optional sign,
longest digit run; `NaN` (here `none`) when no digits are found. -/
def jsParseInt (s : String) : Option Int :=
  match s.toList.dropWhile jsSpace with
  | '-' :: rest =>
    let ds := rest.takeWhile Char.isDigit
    if ds.isEmpty then none else some (-(decDigitsVal ds : Int))
  | '+' :: rest =>
    let ds := rest.takeWhile Char.isDigit
    if ds.isEmpty then none else some (decDigitsVal ds : Int)
  | l =>
    let ds := l.takeWhile Char.isDigit
    if ds.isEmpty then none else some (decDigitsVal ds : Int)

/-- A JavaScript request-body value, as far as the booking controller can
distinguish them: a number, a string, or absent. -/
inductive JSVal where
  | num (n : Int)
  | str (s : String)
  | undef
deriving DecidableEq

/-- JavaScript truthiness of a request-body value (`!v` in the controller's
missing-fields check): the number 0, the empty string and `undefined` are
falsy. -/
def jsTruthy : JSVal → Bool
  | .num n => !(n == 0)
  | .str s => !(s == "")
  | .undef => false

/-- `parseInt(v, 10)` applied to a request-body value: an integer number
parses to itself, a string goes through `jsParseInt`, `undefined` is `NaN`. -/
def jsToInt : JSVal → Option Int
  | .num n => some n
  | .str s => jsParseInt s
  | .undef => none

/-- Parse a canonical zero-padded 24h `HH:mm` string to minutes after
midnight, modelling `moment(s, 'HH:mm')` validity on the wire format. -/
def parseHHMM (s : String) : Option Nat :=
  match s.toList with
  | [h1, h2, sep, m1, m2] =>
    if sep == ':' && h1.isDigit && h2.isDigit && m1.isDigit && m2.isDigit then
      let h := (h1.toNat - 48) * 10 + (h2.toNat - 48)
      let m := (m1.toNat - 48) * 10 + (m2.toNat - 48)
      if h < 24 && m < 60 then some (h * 60 + m) else none
    else none
  | _ => none

/-- Sort key used by the cancellation re-sort
`moment(a,'HH:mm').diff(moment(b,'HH:mm'))`: minutes after midnight. -/
def timeKey (s : String) : Nat := (parseHHMM s).getD 0

/-- The decimal digit character for a value below ten. -/
def digitChar : Nat → Char
  | 0 => '0' | 1 => '1' | 2 => '2' | 3 => '3' | 4 => '4'
  | 5 => '5' | 6 => '6' | 7 => '7' | 8 => '8' | _ => '9'

/-- Zero-pad a number below 100 to two digits (for `HH:mm` formatting). -/
def pad2 (n : Nat) : String := String.mk [digitChar (n / 10 % 10), digitChar (n % 10)]

/-- Format minutes-after-midnight as an `HH:mm` string, as
`moment.format('HH:mm')` does after add/subtract (wrapping over midnight). -/
def formatHHMM (n : Nat) : String := pad2 (n / 60 % 24) ++ ":" ++ pad2 (n % 60)

/-- Byte-wise ≤ on character lists (BSON/UTF-8 string comparison used by the
MongoDB `$gte`/`$lte` operators on `HH:mm` strings). -/
def charsLe : List Char → List Char → Bool
  | [], _ => true
  | _ :: _, [] => false
  | a :: as, b :: bs =>
    if a.toNat < b.toNat then true
    else if b.toNat < a.toNat then false
    else charsLe as bs

/-- String ≤ in BSON order (lexicographic byte order). -/
def strLeB (a b : String) : Bool := charsLe a.toList b.toList

/-- Does list `l` start with `pat` (helper for substring matching)? -/
def startsWithChars : List Char → List Char → Bool
  | _, [] => true
  | [], _ :: _ => false
  | a :: as, b :: bs => a == b && startsWithChars as bs

/-- Does `l` contain `pat` as a contiguous run (helper for regex-as-substring
matching)? -/
def containsChars (pat : List Char) : List Char → Bool
  | [] => pat.isEmpty
  | c :: rest => startsWithChars (c :: rest) pat || containsChars pat rest

/-- Case-insensitive substring test, modelling
`new RegExp(location, 'i')` matched against a city name (for location strings
without regex metacharacters). -/
def strContainsCI (hay pat : String) : Bool :=
  containsChars (pat.toList.map Char.toLower) (hay.toList.map Char.toLower)

/-- One table definition inside a `DateAvailability` entry: the subdocument
`{ tableSize, availableTimes }` with its Mongo `_id`. -/
structure TableDef where
  tdid : Nat
  tableSize : Int
  availableTimes : List String
deriving DecidableEq

/-- One `availableTables` entry of a restaurant: `{ date, tables }`. -/
structure DateEntry where
  edate : Int
  tables : List TableDef
deriving DecidableEq

/-- A restaurant document, restricted to the fields the embedded controllers
read or write. -/
structure Restaurant where
  rid : Nat
  isApproved : Bool
  city : String
  zip : String
  availableTables : List DateEntry
  timesBookedToday : Int
deriving DecidableEq

/-- Booking status: the schema's `status ∈ { confirmed, cancelled }`. -/
inductive BStatus where
  | confirmed
  | cancelled
deriving DecidableEq

/-- A booking document. -/
structure Booking where
  bid : Nat
  userId : Nat
  restaurantId : Nat
  bdate : Int
  btime : String
  partySize : Int
  tableSize : Int
  bookedTableDefinitionId : Option Nat
  status : BStatus
deriving DecidableEq

/-- The persistent store: restaurants, bookings, and the id supply for new
bookings. -/
structure DB where
  restaurants : List Restaurant
  bookings : List Booking
  nextBookingId : Nat
deriving DecidableEq

/-- Requesting user's role, from the auth middleware (`req.user.role`). -/
inductive Role where
  | admin
  | manager
  | customer
deriving DecidableEq

/-- The authenticated requesting user (`req.user`). -/
structure User where
  uid : Nat
  role : Role
deriving DecidableEq

/-- Mutate the first element of a list satisfying `p` with `f`, leaving the
rest unchanged.  This models a Mongoose `array.find(...)` followed by a
mutation of the found subdocument and a `save()`. -/
def updateFirst (p : α → Bool) (f : α → α) : List α → List α
  | [] => []
  | x :: xs => if p x then f x :: xs else x :: updateFirst p f xs

/-- Date comparison of `createBooking`:
`moment(entry.date).utc().format('YYYY-MM-DD') === moment(input).utc().format('YYYY-MM-DD')`. -/
def createDateMatch (input edate : Int) : Bool := utcDay edate == utcDay input

/-- Date comparison of the first revision of `cancelBooking`:
both sides formatted with `moment(x).format('YYYY-MM-DD')` in server-local
time. -/
def cancelV1DateMatch (tz bdate edate : Int) : Bool :=
  localDay tz edate == localDay tz bdate

/-- Date comparison of the second revision of `cancelBooking`:
`moment(entry.date).utc().isSame(moment(booking.date).utc(), 'day')`. -/
def cancelV2DateMatch (bdate edate : Int) : Bool := utcDay edate == utcDay bdate

/-- Date comparison of `searchRestaurants`'s aggregation pipeline:
`$eq: [ "$$at.date", searchDate ]` — exact instant equality against the UTC
midnight built from the `YYYY-MM-DD` query string (day index `day`). -/
def searchDateMatch (day edate : Int) : Bool := edate == day * 1440

/-- The availability matcher's per-table eligibility test:
`table.tableSize >= numericPartySize && table.availableTimes.includes(time)`. -/
def suitableFor (n : Int) (time : String) (t : TableDef) : Bool :=
  decide (n ≤ t.tableSize) && t.availableTimes.contains time

/-- Remove the booked time from a matched table:
`suitableTable.availableTimes = suitableTable.availableTimes.filter(t => t !== time)`. -/
def consumeTime (time : String) (t : TableDef) : TableDef :=
  { t with availableTimes := t.availableTimes.filter (fun x => !(x == time)) }

/-- A `createBooking` request body (plus the authenticated user id). -/
structure CreateReq where
  userId : Nat
  restaurantId : Option Nat
  rdate : Option Int
  rtime : Option String
  rpartySize : JSVal
deriving DecidableEq

/-- The user-facing failures of `createBooking`, in the order the controller
checks for them. -/
inductive CreateErr where
  | missingFields
  | invalidPartySize
  | restaurantNotFound
  | noAvailabilityForDate
  | noSuitableTable
deriving DecidableEq

/-- Everything the read phase of `createBooking` determines before its first
write: who books what, and the availability array the controller will write
back (already locally mutated, as the JS closure holds the fetched document). -/
structure BookingPlan where
  planUserId : Nat
  planRid : Nat
  planDay : Int
  planTime : String
  planPartySize : Int
  planTdid : Nat
  planTableSize : Int
  planNewTables : List DateEntry
deriving DecidableEq

/-- Result of the read phase of `createBooking`. -/
inductive ReadOut where
  | fail (e : CreateErr)
  | ok (p : BookingPlan)
deriving DecidableEq

/-- Read phase of `createBooking` (everything before the first `save()`):
field-presence check by JS truthiness, `parseInt` of the party size,
restaurant lookup, date-availability lookup by UTC day, and the first-fit
table match. -/
def createRead (req : CreateReq) (db : DB) : ReadOut :=
  match req.restaurantId, req.rdate, req.rtime with
  | some rid, some date, some time =>
    if time == "" || !(jsTruthy req.rpartySize) then .fail .missingFields
    else
      match jsToInt req.rpartySize with
      | none => .fail .invalidPartySize
      | some n =>
        if n ≤ 0 then .fail .invalidPartySize
        else
          match db.restaurants.find? (fun r => r.rid == rid) with
          | none => .fail .restaurantNotFound
          | some r =>
            match r.availableTables.find? (fun e => createDateMatch date e.edate) with
            | none => .fail .noAvailabilityForDate
            | some e =>
              match e.tables.find? (suitableFor n time) with
              | none => .fail .noSuitableTable
              | some t =>
                .ok ⟨req.userId, rid, utcDay date, time, n, t.tdid, t.tableSize,
                  updateFirst (fun e2 => createDateMatch date e2.edate)
                    (fun e2 => { e2 with
                      tables := updateFirst (suitableFor n time) (consumeTime time) e2.tables })
                    r.availableTables⟩
  | _, _, _ => .fail .missingFields

/-- The booking document `createBooking` constructs: date normalized to UTC
start of day, status `confirmed`, back-reference to the matched table. -/
def mkBooking (p : BookingPlan) (bid : Nat) : Booking :=
  ⟨bid, p.planUserId, p.planRid, p.planDay * 1440, p.planTime, p.planPartySize,
    p.planTableSize, some p.planTdid, .confirmed⟩

/-- Write phase of `createBooking`: persist the new booking, write the locally
mutated `availableTables` array back onto the restaurant (Mongoose
`markModified` + `save`, a whole-array last-write-wins replacement), and apply
the `$inc: { timesBookedToday: 1 }` counter update. -/
def createWrite (p : BookingPlan) (db : DB) : DB :=
  { restaurants :=
      updateFirst (fun r => r.rid == p.planRid)
        (fun r => { r with
          availableTables := p.planNewTables,
          timesBookedToday := r.timesBookedToday + 1 }) db.restaurants,
    bookings := db.bookings ++ [mkBooking p db.nextBookingId],
    nextBookingId := db.nextBookingId + 1 }

/-- Result of `createBooking`. -/
inductive CreateOut where
  | fail (e : CreateErr)
  | ok (b : Booking)
deriving DecidableEq

/-- The full `createBooking` controller: read phase, then write phase when the
match succeeded.  Returns the response and the post-state. -/
def createBooking (req : CreateReq) (db : DB) : CreateOut × DB :=
  match createRead req db with
  | .fail e => (.fail e, db)
  | .ok p => (.ok (mkBooking p db.nextBookingId), createWrite p db)

/-- Responses of the first revision of `cancelBooking`. -/
inductive CancelOutV1 where
  | notFound
  | notAuthorized
  | alreadyCancelled
  | ok
deriving DecidableEq

/-- Responses of the second revision of `cancelBooking`: booking-not-found and
already-cancelled are merged into one 404. -/
inductive CancelOutV2 where
  | notFoundOrCancelled
  | ok
deriving DecidableEq

/-- Is a booking status `cancelled`? -/
def isCancelled : BStatus → Bool
  | .cancelled => true
  | .confirmed => false

/-- Slot restoration of the first `cancelBooking` revision: a bare
`table.availableTimes.push(booking.time)` — no duplicate guard, no sort. -/
def releaseV1 (b : Booking) (t : TableDef) : TableDef :=
  { t with availableTimes := t.availableTimes ++ [b.btime] }

/-- The comparator of the cancellation re-sort, as a relation: nonpositive
`moment(a,'HH:mm').diff(moment(b,'HH:mm'))`. -/
def timeLe (a b : String) : Prop := timeKey a ≤ timeKey b

instance : DecidableRel timeLe := fun a b => Nat.decLe (timeKey a) (timeKey b)

instance : IsTotal String timeLe := ⟨fun a b => Nat.le_total (timeKey a) (timeKey b)⟩

instance : IsTrans String timeLe := ⟨fun _ _ _ => Nat.le_trans⟩

/-- Chronological sort of `HH:mm` strings, modelling
`availableTimes.sort((a, b) => moment(a,'HH:mm').diff(moment(b,'HH:mm')))`. -/
def sortTimes (l : List String) : List String := l.insertionSort timeLe

/-- Slot restoration of the second `cancelBooking` revision: no-op when the
time is already present, otherwise push and re-sort chronologically. -/
def releaseV2 (b : Booking) (t : TableDef) : TableDef :=
  if t.availableTimes.contains b.btime then t
  else { t with availableTimes := sortTimes (t.availableTimes ++ [b.btime]) }

/-- Table lookup of the first `cancelBooking` revision:
`t._id.toString() === booking.bookedTableDefinitionId.toString()`. -/
def tdidMatchV1 (b : Booking) (t : TableDef) : Bool :=
  some t.tdid == b.bookedTableDefinitionId

/-- Table lookup of the second `cancelBooking` revision: by the stored table
definition id when present, else the legacy fallback by table size, requiring
the time to be absent. -/
def tableMatchV2 (b : Booking) (t : TableDef) : Bool :=
  match b.bookedTableDefinitionId with
  | some id => t.tdid == id
  | none => t.tableSize == b.tableSize && !(t.availableTimes.contains b.btime)

/-- The first observed revision of `cancelBooking`: lookup by id, authorize
owner-or-admin, reject already-cancelled with a dedicated error, flip the
status, then best-effort inventory repair using server-local date formatting
and an unconditional push. -/
def cancelBookingV1 (tz : Int) (bookingId : Nat) (u : User) (db : DB) :
    CancelOutV1 × DB :=
  match db.bookings.find? (fun b => b.bid == bookingId) with
  | none => (.notFound, db)
  | some b =>
    if !(b.userId == u.uid) && !(u.role == Role.admin) then (.notAuthorized, db)
    else if isCancelled b.status then (.alreadyCancelled, db)
    else
      (.ok,
        { db with
          bookings := updateFirst (fun x => x.bid == b.bid)
            (fun x => { x with status := .cancelled }) db.bookings,
          restaurants := updateFirst (fun r => r.rid == b.restaurantId)
            (fun r => { r with
              availableTables := updateFirst
                (fun e => cancelV1DateMatch tz b.bdate e.edate)
                (fun e => { e with
                  tables := updateFirst (tdidMatchV1 b) (releaseV1 b) e.tables })
                r.availableTables }) db.restaurants })

/-- The second observed revision of `cancelBooking`: one `findOne` keyed on
booking id, requesting user, and non-cancelled status (admins cannot reach
other users' bookings), then status flip and inventory repair by UTC day with
duplicate guard and chronological re-sort. -/
def cancelBookingV2 (bookingId : Nat) (u : User) (db : DB) : CancelOutV2 × DB :=
  match db.bookings.find?
      (fun b => b.bid == bookingId && b.userId == u.uid && !(isCancelled b.status)) with
  | none => (.notFoundOrCancelled, db)
  | some b =>
    (.ok,
      { db with
        bookings := updateFirst (fun x => x.bid == b.bid)
          (fun x => { x with status := .cancelled }) db.bookings,
        restaurants := updateFirst (fun r => r.rid == b.restaurantId)
          (fun r => { r with
            availableTables := updateFirst
              (fun e => cancelV2DateMatch b.bdate e.edate)
              (fun e => { e with
                tables := updateFirst (tableMatchV2 b) (releaseV2 b) e.tables })
              r.availableTables }) db.restaurants })

/-- A `searchRestaurants` query string: optional location, date (as a UTC day
index parsed from the `YYYY-MM-DD` string), time and party size. -/
structure SearchQuery where
  location : Option String
  qdate : Option Int
  qtime : Option String
  qpartySize : Option String
deriving DecidableEq

/-- Result of `searchRestaurants`. -/
inductive SearchRes where
  | invalidTimeFormat
  | ok (rs : List Restaurant)
deriving DecidableEq

/-- The location part of the initial query: city regex (case-insensitive
substring) or exact zip match; no filter when absent. -/
def locationMatch (loc : Option String) (r : Restaurant) : Bool :=
  match loc with
  | none => true
  | some l => if l == "" then true else strContainsCI r.city l || r.zip == l

/-- The `$match` stage entered by every search: approved restaurants passing
the location filter. -/
def initialMatch (q : SearchQuery) (r : Restaurant) : Bool :=
  r.isApproved && locationMatch q.location r

/-- The effective table-size filter: present only when `partySize` was
supplied (truthy) and parses to a positive integer; an invalid party size
degrades to no filter rather than failing the search. -/
def effectiveSizeFilter (q : SearchQuery) : Option Int :=
  match q.qpartySize with
  | none => none
  | some s =>
    if s == "" then none
    else
      match jsParseInt s with
      | none => none
      | some n => if 0 < n then some n else none

/-- Is a slot inside the inclusive tolerance window, compared in `HH:mm`
string space (`$gte`/`$lte` on BSON strings)? -/
def slotInWindow (startStr endStr slot : String) : Bool :=
  strLeB startStr slot && strLeB slot endStr

/-- The per-table `$filter` condition of the search pipeline: optional size
check and a nonempty set of slots inside the tolerance window. -/
def tableQualifies (sizeOpt : Option Int) (startStr endStr : String)
    (t : TableDef) : Bool :=
  (match sizeOpt with
   | some n => decide (n ≤ t.tableSize)
   | none => true) &&
  !((t.availableTimes.filter (slotInWindow startStr endStr)).isEmpty)

/-- The date/table stages of the search pipeline: keep the entries whose
stored date equals the search date exactly, require the result nonempty, take
element 0, and require a nonempty set of qualifying tables in it. -/
def restaurantQualifies (day : Int) (sizeOpt : Option Int)
    (startStr endStr : String) (r : Restaurant) : Bool :=
  match r.availableTables.filter (fun e => searchDateMatch day e.edate) with
  | [] => false
  | e :: _ => !((e.tables.filter (tableQualifies sizeOpt startStr endStr)).isEmpty)

/-- The `searchRestaurants` controller.  With both date and time supplied it
validates the time, computes the ±30-minute window in `HH:mm` string space and
runs the availability pipeline; otherwise it returns the unfiltered listing
under the initial match only.  The review/manager annotation stages of the
source add fields but never drop documents and are omitted. -/
def searchRestaurants (q : SearchQuery) (db : DB) : SearchRes :=
  match q.qdate, q.qtime with
  | some day, some ts =>
    if ts == "" then .ok (db.restaurants.filter (initialMatch q))
    else
      match parseHHMM ts with
      | none => .invalidTimeFormat
      | some m =>
        let startStr := formatHHMM ((m + 1410) % 1440)
        let endStr := formatHHMM ((m + 30) % 1440)
        .ok (db.restaurants.filter (fun r =>
          initialMatch q r &&
          restaurantQualifies day (effectiveSizeFilter q) startStr endStr r))
  | _, _ => .ok (db.restaurants.filter (initialMatch q))

/-- One request against the booking lifecycle: a create, or a cancellation
through either observed revision of the cancel controller (`cancelA` carries
the server timezone offset its date formatting depends on). -/
inductive Op where
  | create (req : CreateReq)
  | cancelA (tz : Int) (bookingId : Nat) (u : User)
  | cancelB (bookingId : Nat) (u : User)

/-- State transition of one request (response discarded). -/
def applyOp (db : DB) : Op → DB
  | .create req => (createBooking req db).2
  | .cancelA tz bookingId u => (cancelBookingV1 tz bookingId u db).2
  | .cancelB bookingId u => (cancelBookingV2 bookingId u db).2

/-- State after a sequence of requests. -/
def applyOps (db : DB) (ops : List Op) : DB := ops.foldl applyOp db

/-- Is there a confirmed booking consuming slot `s` of table `tdid` of
restaurant `rid` on day `day`? -/
def confirmedAt (db : DB) (rid tdid : Nat) (day : Int) (s : String) : Prop :=
  ∃ b ∈ db.bookings, b.status = .confirmed ∧ b.restaurantId = rid ∧
    b.bookedTableDefinitionId = some tdid ∧ utcDay b.bdate = day ∧ b.btime = s

instance (db : DB) (rid tdid : Nat) (day : Int) (s : String) :
    Decidable (confirmedAt db rid tdid day s) := by
  unfold confirmedAt
  exact List.decidableBEx _ _

/-- Well-formedness of a store, as established by the schema, the id
discipline of the persistence layer and the data-model invariants of the
inventory seeding step, together with the slot/booking consistency invariant
itself.  `Good` is preserved by every operation (proved below). -/
structure Good (db : DB) : Prop where
  ridUniq : db.restaurants.Pairwise (fun a b => a.rid ≠ b.rid)
  dateNorm : ∀ r ∈ db.restaurants, ∀ e ∈ r.availableTables,
    e.edate = utcDay e.edate * 1440
  dayUniq : ∀ r ∈ db.restaurants,
    r.availableTables.Pairwise (fun a b => utcDay a.edate ≠ utcDay b.edate)
  tdidUniq : ∀ r ∈ db.restaurants, ∀ e ∈ r.availableTables,
    e.tables.Pairwise (fun a b => a.tdid ≠ b.tdid)
  bidUniq : db.bookings.Pairwise (fun a b => a.bid ≠ b.bid)
  bidLt : ∀ b ∈ db.bookings, b.bid < db.nextBookingId
  bdateNorm : ∀ b ∈ db.bookings, b.bdate = utcDay b.bdate * 1440
  refs : ∀ b ∈ db.bookings, b.status = .confirmed →
    ∃ r ∈ db.restaurants, r.rid = b.restaurantId ∧
      ∃ e ∈ r.availableTables, utcDay e.edate = utcDay b.bdate ∧
        ∃ t ∈ e.tables, some t.tdid = b.bookedTableDefinitionId
  confUniq : db.bookings.Pairwise (fun a b =>
    a.status = .confirmed → b.status = .confirmed →
    ¬(a.restaurantId = b.restaurantId ∧
      a.bookedTableDefinitionId = b.bookedTableDefinitionId ∧
      utcDay a.bdate = utcDay b.bdate ∧ a.btime = b.btime))
  invA : ∀ r ∈ db.restaurants, ∀ e ∈ r.availableTables, ∀ t ∈ e.tables,
    ∀ s ∈ t.availableTimes, ¬ confirmedAt db r.rid t.tdid (utcDay e.edate) s
  invB : ∀ r ∈ db.restaurants, ∀ e ∈ r.availableTables, ∀ t ∈ e.tables,
    ∀ b ∈ db.bookings, b.restaurantId = r.rid →
      b.bookedTableDefinitionId = some t.tdid → utcDay b.bdate = utcDay e.edate →
      ¬ confirmedAt db r.rid t.tdid (utcDay e.edate) b.btime →
      b.btime ∈ t.availableTimes

/-- Availability of one table, as read back through the lookup chain the
controllers use (restaurant by id, entry by UTC day, table by definition id). -/
def findTimes (db : DB) (rid : Nat) (day : Int) (tdid : Nat) :
    Option (List String) :=
  match db.restaurants.find? (fun r => r.rid == rid) with
  | none => none
  | some r =>
    match r.availableTables.find? (fun e => utcDay e.edate == day) with
    | none => none
    | some e =>
      match e.tables.find? (fun t => t.tdid == tdid) with
      | none => none
      | some t => some t.availableTimes

/-- A sample table definition (id 5, four seats, two evening slots) used to
instantiate theorems on concrete states. -/
def exTable : TableDef := ⟨5, 4, ["18:00", "18:30"]⟩

/-- A sample approved restaurant with one availability entry at UTC midnight
of day 0. -/
def exRestaurant : Restaurant := ⟨1, true, "San Jose", "95112", [⟨0, [exTable]⟩], 0⟩

/-- A sample well-formed store with no bookings. -/
def exDB : DB := ⟨[exRestaurant], [], 0⟩

/-- A sample booking request for the "18:00" slot of `exRestaurant`. -/
def exReq : CreateReq := ⟨7, some 1, some 0, some "18:00", .num 4⟩

/-- A variant of `exRestaurant` whose availability entry is stored at UTC
noon of day 0 instead of UTC midnight. -/
def exRestaurantNoon : Restaurant :=
  ⟨1, true, "San Jose", "95112", [⟨720, [exTable]⟩], 0⟩

/-- The store holding `exRestaurantNoon`. -/
def exDBNoon : DB := ⟨[exRestaurantNoon], [], 0⟩

/-- The unguarded interleaving the async controller admits: both requests run
their read phase (validation, lookups, first-fit match) against the same
stored state, then both write phases are persisted, the second save winning
on the shared `availableTables` array. Nothing in the controller orders or
versions the two `save()` round-trips. -/
def interleaved (req1 req2 : CreateReq) (db : DB) : Option DB :=
  match createRead req1 db, createRead req2 db with
  | .ok p1, .ok p2 => some (createWrite p2 (createWrite p1 db))
  | _, _ => none

/-!
Supporting lemmas: list surgery around `updateFirst`/`find?`, keyed
uniqueness, sorting, and day arithmetic.
-/

theorem updateFirst_of_forall_not {α} {p : α → Bool} (f : α → α) {l : List α}
    (h : ∀ x ∈ l, p x = false) : updateFirst p f l = l := by
  induction l with
  | nil => rfl
  | cons x xs ih =>
    have hx := h x (List.mem_cons_self x xs)
    simp only [updateFirst, hx, Bool.false_eq_true, if_false, List.cons.injEq, true_and]
    exact ih fun y hy => h y (List.mem_cons_of_mem x hy)

theorem updateFirst_decomp {α} {p : α → Bool} {l : List α} {a : α}
    (h : l.find? p = some a) (f : α → α) :
    ∃ l₁ l₂, l = l₁ ++ a :: l₂ ∧ (∀ x ∈ l₁, p x = false) ∧ p a = true ∧
      updateFirst p f l = l₁ ++ f a :: l₂ := by
  induction l with
  | nil => simp [List.find?] at h
  | cons x xs ih =>
    by_cases hp : p x
    · rw [List.find?_cons_of_pos _ hp] at h
      cases h
      exact ⟨[], xs, by simp, by simp, hp, by simp [updateFirst, hp]⟩
    · rw [List.find?_cons_of_neg _ hp] at h
      obtain ⟨l₁, l₂, hsplit, hnot, hpa, hupd⟩ := ih h
      refine ⟨x :: l₁, l₂, by simp [hsplit], ?_, hpa, ?_⟩
      · intro y hy
        rcases List.mem_cons.mp hy with rfl | hy'
        · exact (Bool.not_eq_true _).mp hp
        · exact hnot y hy'
      · have hpx : p x = false := (Bool.not_eq_true _).mp hp
        simp [updateFirst, hpx, hupd]

theorem find?_middle {α} {p : α → Bool} {l₁ l₂ : List α} {a : α}
    (h1 : ∀ x ∈ l₁, p x = false) (h2 : p a = true) :
    (l₁ ++ a :: l₂).find? p = some a := by
  induction l₁ with
  | nil => simp [List.find?_cons_of_pos _ h2]
  | cons x xs ih =>
    have hx := h1 x (List.mem_cons_self x xs)
    rw [List.cons_append, List.find?_cons_of_neg _ (by simp [hx])]
    exact ih fun y hy => h1 y (List.mem_cons_of_mem x hy)

theorem eq_of_pairwise_key {α β} (k : α → β) {l : List α}
    (hp : l.Pairwise (fun a b => k a ≠ k b)) {a x : α}
    (ha : a ∈ l) (hx : x ∈ l) (hk : k x = k a) : x = a := by
  induction l with
  | nil => cases ha
  | cons y ys ih =>
    rcases List.pairwise_cons.mp hp with ⟨hy, hys⟩
    rcases List.mem_cons.mp ha with rfl | ha' <;> rcases List.mem_cons.mp hx with rfl | hx'
    · rfl
    · exact absurd hk.symm (hy x hx')
    · exact absurd hk (hy a ha')
    · exact ih hys ha' hx'

theorem find?_eq_of_mem_key {α β} (k : α → β) [DecidableEq β] {l : List α}
    (hp : l.Pairwise (fun a b => k a ≠ k b)) {a : α}
    (ha : a ∈ l) {p : α → Bool} (hkey : ∀ x ∈ l, p x = true ↔ k x = k a) :
    l.find? p = some a := by
  induction l with
  | nil => cases ha
  | cons y ys ih =>
    rcases List.pairwise_cons.mp hp with ⟨hy, hys⟩
    rcases List.mem_cons.mp ha with rfl | ha'
    · exact List.find?_cons_of_pos _ ((hkey _ (List.mem_cons_self _ _)).mpr rfl)
    · have hny : ¬ p y = true := fun hpy =>
        hy a ha' ((hkey y (List.mem_cons_self _ _)).mp hpy)
      rw [List.find?_cons_of_neg _ hny]
      exact ih hys ha' fun x hx => hkey x (List.mem_cons_of_mem _ hx)

theorem pairwise_of_mem_ne {α} {R : α → α → Prop} {l : List α}
    (h : l.Pairwise R) {a b : α} (ha : a ∈ l) (hb : b ∈ l) (hne : a ≠ b) :
    R a b ∨ R b a := by
  induction l with
  | nil => cases ha
  | cons y ys ih =>
    rcases List.pairwise_cons.mp h with ⟨hy, hys⟩
    rcases List.mem_cons.mp ha with rfl | ha' <;> rcases List.mem_cons.mp hb with rfl | hb'
    · exact absurd rfl hne
    · exact Or.inl (hy b hb')
    · exact Or.inr (hy a ha')
    · exact ih hys ha' hb'

theorem utcDay_mul (d : Int) : utcDay (d * 1440) = d := by
  unfold utcDay
  rw [Int.fdiv_eq_ediv _ (by norm_num)]
  exact Int.mul_ediv_cancel d (by norm_num)

theorem localDay_mul (tz d : Int) : localDay tz (d * 1440) = d + tz.fdiv 1440 := by
  unfold localDay
  rw [Int.fdiv_eq_ediv _ (by norm_num), Int.fdiv_eq_ediv _ (by norm_num), Int.add_comm,
    Int.add_mul_ediv_right tz d (by norm_num : (1440 : Int) ≠ 0)]
  exact Int.add_comm _ _

theorem cancelV1DateMatch_norm (tz d1 d2 : Int) :
    cancelV1DateMatch tz (d1 * 1440) (d2 * 1440) = (d2 == d1) := by
  unfold cancelV1DateMatch
  rw [localDay_mul, localDay_mul]
  rcases Decidable.em (d2 = d1) with h | h
  · simp [h]
  · have h2 : ¬ (d2 + tz.fdiv 1440 = d1 + tz.fdiv 1440) := by omega
    simp [h, h2]

theorem cancelV1DateMatch_day {tz b e : Int} (hb : b = utcDay b * 1440)
    (he : e = utcDay e * 1440) :
    cancelV1DateMatch tz b e = true ↔ utcDay e = utcDay b := by
  conv_lhs => rw [hb, he]
  rw [cancelV1DateMatch_norm]
  simp

theorem sortTimes_perm (l : List String) : (sortTimes l).Perm l :=
  List.perm_insertionSort timeLe l

theorem sortTimes_mem (s : String) (l : List String) :
    s ∈ sortTimes l ↔ s ∈ l :=
  (sortTimes_perm l).mem_iff

theorem sortTimes_sorted (l : List String) : (sortTimes l).Sorted timeLe :=
  List.sorted_insertionSort timeLe l

theorem pairwise_lt_of_le_of_nodup_keys {l : List String}
    (hle : l.Pairwise timeLe) (hnd : (l.map timeKey).Nodup) :
    l.Pairwise (fun a b => timeKey a < timeKey b) := by
  induction l with
  | nil => exact List.Pairwise.nil
  | cons x xs ih =>
    rcases List.pairwise_cons.mp hle with ⟨hx, hxs⟩
    rw [List.map_cons, List.nodup_cons] at hnd
    refine List.pairwise_cons.mpr ⟨?_, ih hxs hnd.2⟩
    intro y hy
    refine Nat.lt_of_le_of_ne (hx y hy) ?_
    intro hkeq
    exact hnd.1 (hkeq ▸ List.mem_map_of_mem timeKey hy)

instance : IsAntisymm String (fun a b => timeKey a < timeKey b) :=
  ⟨fun _ _ h1 h2 => absurd h2 (Nat.lt_asymm h1)⟩

theorem sortTimes_restore {l : List String} {s : String}
    (hsort : l.Pairwise (fun a b => timeKey a < timeKey b)) (hs : s ∈ l) :
    sortTimes (l.filter (fun x => !(x == s)) ++ [s]) = l := by
  have hnd : l.Nodup := hsort.imp fun h => by
    intro heq
    exact absurd (heq ▸ rfl) (Nat.ne_of_lt (heq ▸ h))
  have hfilter : l.filter (fun x => !(x == s)) = l.erase s := by
    rw [List.Nodup.erase_eq_filter hnd]
    rfl
  have hperm : (l.filter (fun x => !(x == s)) ++ [s]).Perm l := by
    rw [hfilter]
    exact (List.perm_append_singleton s _).trans (List.perm_cons_erase hs).symm
  have hperm2 : (sortTimes (l.filter (fun x => !(x == s)) ++ [s])).Perm l :=
    (sortTimes_perm _).trans hperm
  have hkeys : ((sortTimes (l.filter (fun x => !(x == s)) ++ [s])).map timeKey).Nodup := by
    have hmap : ((sortTimes (l.filter (fun x => !(x == s)) ++ [s])).map timeKey).Perm
        (l.map timeKey) := hperm2.map timeKey
    refine hmap.nodup_iff.mpr ?_
    have hne : l.Pairwise (fun a b => timeKey a ≠ timeKey b) :=
      hsort.imp fun h => Nat.ne_of_lt h
    exact List.pairwise_map.mpr hne
  have hsorted : (sortTimes (l.filter (fun x => !(x == s)) ++ [s])).Pairwise
      (fun a b => timeKey a < timeKey b) :=
    pairwise_lt_of_le_of_nodup_keys (sortTimes_sorted _) hkeys
  exact List.eq_of_perm_of_sorted hperm2 hsorted hsort

theorem pairwise_middle {α} {R : α → α → Prop} {l₁ l₂ : List α} {a : α}
    (h : (l₁ ++ a :: l₂).Pairwise R) :
    (∀ x ∈ l₁, R x a) ∧ ∀ x ∈ l₂, R a x := by
  rw [List.pairwise_append] at h
  obtain ⟨h₁, h₂, h₃⟩ := h
  rcases List.pairwise_cons.mp h₂ with ⟨ha, _⟩
  exact ⟨fun x hx => h₃ x hx a (List.mem_cons_self a l₂), ha⟩

theorem pairwise_replace_middle {α} {R : α → α → Prop} {l₁ l₂ : List α} {a b : α}
    (hcongr : ∀ x, (R x a → R x b) ∧ (R a x → R b x))
    (h : (l₁ ++ a :: l₂).Pairwise R) : (l₁ ++ b :: l₂).Pairwise R := by
  rw [List.pairwise_append] at h ⊢
  obtain ⟨h₁, h₂, h₃⟩ := h
  rcases List.pairwise_cons.mp h₂ with ⟨ha, hl₂⟩
  refine ⟨h₁, List.pairwise_cons.mpr ⟨fun x hx => (hcongr x).2 (ha x hx), hl₂⟩, ?_⟩
  intro x hx y hy
  rcases List.mem_cons.mp hy with rfl | hy'
  · exact (hcongr x).1 (h₃ x hx a (List.mem_cons_self a l₂))
  · exact h₃ x hx y (List.mem_cons_of_mem _ hy')

/-- Where an inventory chain of the post-state comes from, for a state
obtained by replacing one restaurant `r0` by `r0'`, inside it one date entry
`e0` by `e0'`, and inside that one table `t0` by `t0'` (all other list
elements untouched): a post-state chain is either the replaced chain itself or
an untouched chain of the pre-state whose key differs from the replaced one. -/
theorem chain_cases {rs rs' : List Restaurant} {R₁ R₂ : List Restaurant}
    {r0 r0' : Restaurant} {E₁ E₂ : List DateEntry} {e0 e0' : DateEntry}
    {T₁ T₂ : List TableDef} {t0 t0' : TableDef}
    (hrs : rs = R₁ ++ r0 :: R₂) (hrs' : rs' = R₁ ++ r0' :: R₂)
    (hr0id : r0'.rid = r0.rid)
    (hE : r0.availableTables = E₁ ++ e0 :: E₂)
    (hE' : r0'.availableTables = E₁ ++ e0' :: E₂)
    (he0d : e0'.edate = e0.edate)
    (hT : e0.tables = T₁ ++ t0 :: T₂) (hT' : e0'.tables = T₁ ++ t0' :: T₂)
    (hridU : rs.Pairwise (fun a b => a.rid ≠ b.rid))
    (hdayU : r0.availableTables.Pairwise (fun a b => utcDay a.edate ≠ utcDay b.edate))
    (htdU : e0.tables.Pairwise (fun a b => a.tdid ≠ b.tdid)) :
    ∀ r' ∈ rs', ∀ e' ∈ r'.availableTables, ∀ t' ∈ e'.tables,
      (r' = r0' ∧ e' = e0' ∧ t' = t0') ∨
      (∃ r ∈ rs, ∃ e ∈ r.availableTables, ∃ t ∈ e.tables,
        r'.rid = r.rid ∧ e'.edate = e.edate ∧ t' = t ∧
        ¬(r.rid = r0.rid ∧ utcDay e.edate = utcDay e0.edate ∧ t.tdid = t0.tdid)) := by
  intro r' hr' e' he' t' ht'
  subst hrs hrs'
  have hmid := pairwise_middle hridU
  rcases List.mem_append.mp hr' with hr1 | hr2
  · -- untouched restaurant from the left part
    refine Or.inr ⟨r', List.mem_append_left _ hr1, e', he', t', ht', rfl, rfl, rfl, ?_⟩
    intro ⟨hk, _, _⟩
    exact (hmid.1 r' hr1) hk
  rcases List.mem_cons.mp hr2 with rfl | hr3
  · -- the replaced restaurant
    rw [hE'] at he'
    have hmidE := pairwise_middle (hE ▸ hdayU)
    rcases List.mem_append.mp he' with he1 | he2
    · refine Or.inr ⟨r0, List.mem_append_right _ (List.mem_cons_self _ _),
        e', hE ▸ List.mem_append_left _ he1, t', ht', hr0id, rfl, rfl, ?_⟩
      intro ⟨_, hk, _⟩
      exact (hmidE.1 e' he1) hk
    rcases List.mem_cons.mp he2 with rfl | he3
    · -- the replaced entry
      rw [hT'] at ht'
      have hmidT := pairwise_middle (hT ▸ htdU)
      rcases List.mem_append.mp ht' with ht1 | ht2
      · refine Or.inr ⟨r0, List.mem_append_right _ (List.mem_cons_self _ _),
          e0, hE ▸ List.mem_append_right _ (List.mem_cons_self _ _),
          t', hT ▸ List.mem_append_left _ ht1, hr0id, he0d, rfl, ?_⟩
        intro ⟨_, _, hk⟩
        exact (hmidT.1 t' ht1) hk
      rcases List.mem_cons.mp ht2 with rfl | ht3
      · exact Or.inl ⟨rfl, rfl, rfl⟩
      · refine Or.inr ⟨r0, List.mem_append_right _ (List.mem_cons_self _ _),
          e0, hE ▸ List.mem_append_right _ (List.mem_cons_self _ _),
          t', hT ▸ List.mem_append_right _ (List.mem_cons_of_mem _ ht3),
          hr0id, he0d, rfl, ?_⟩
        intro ⟨_, _, hk⟩
        exact (hmidT.2 t' ht3) hk.symm
    · refine Or.inr ⟨r0, List.mem_append_right _ (List.mem_cons_self _ _),
        e', hE ▸ List.mem_append_right _ (List.mem_cons_of_mem _ he3), t', ht',
        hr0id, rfl, rfl, ?_⟩
      intro ⟨_, hk, _⟩
      exact (hmidE.2 e' he3) hk.symm
  · -- untouched restaurant from the right part
    refine Or.inr ⟨r', List.mem_append_right _ (List.mem_cons_of_mem _ hr3),
      e', he', t', ht', rfl, rfl, rfl, ?_⟩
    intro ⟨hk, _, _⟩
    exact (hmid.2 r' hr3) hk.symm

/-- Every inventory chain of the pre-state has a chain with the same
(restaurant id, day, table id) key in the post-state of a middle-replacement
as in `chain_cases`. -/
theorem chain_surj {rs rs' : List Restaurant} {R₁ R₂ : List Restaurant}
    {r0 r0' : Restaurant} {E₁ E₂ : List DateEntry} {e0 e0' : DateEntry}
    {T₁ T₂ : List TableDef} {t0 t0' : TableDef}
    (hrs : rs = R₁ ++ r0 :: R₂) (hrs' : rs' = R₁ ++ r0' :: R₂)
    (hr0id : r0'.rid = r0.rid)
    (hE : r0.availableTables = E₁ ++ e0 :: E₂)
    (hE' : r0'.availableTables = E₁ ++ e0' :: E₂)
    (he0d : e0'.edate = e0.edate)
    (hT : e0.tables = T₁ ++ t0 :: T₂) (hT' : e0'.tables = T₁ ++ t0' :: T₂)
    (ht0id : t0'.tdid = t0.tdid) :
    ∀ r ∈ rs, ∀ e ∈ r.availableTables, ∀ t ∈ e.tables,
      ∃ r' ∈ rs', ∃ e' ∈ r'.availableTables, ∃ t' ∈ e'.tables,
        r'.rid = r.rid ∧ e'.edate = e.edate ∧ t'.tdid = t.tdid := by
  intro r hr e he t ht
  subst hrs hrs'
  rcases List.mem_append.mp hr with hr1 | hr2
  · exact ⟨r, List.mem_append_left _ hr1, e, he, t, ht, rfl, rfl, rfl⟩
  rcases List.mem_cons.mp hr2 with rfl | hr3
  · rw [hE] at he
    rcases List.mem_append.mp he with he1 | he2
    · exact ⟨r0', List.mem_append_right _ (List.mem_cons_self _ _),
        e, hE' ▸ List.mem_append_left _ he1, t, ht, hr0id, rfl, rfl⟩
    rcases List.mem_cons.mp he2 with rfl | he3
    · rw [hT] at ht
      rcases List.mem_append.mp ht with ht1 | ht2
      · exact ⟨r0', List.mem_append_right _ (List.mem_cons_self _ _),
          e0', hE' ▸ List.mem_append_right _ (List.mem_cons_self _ _),
          t, hT' ▸ List.mem_append_left _ ht1, hr0id, he0d, rfl⟩
      rcases List.mem_cons.mp ht2 with rfl | ht3
      · exact ⟨r0', List.mem_append_right _ (List.mem_cons_self _ _),
          e0', hE' ▸ List.mem_append_right _ (List.mem_cons_self _ _),
          t0', hT' ▸ List.mem_append_right _ (List.mem_cons_self _ _),
          hr0id, he0d, ht0id⟩
      · exact ⟨r0', List.mem_append_right _ (List.mem_cons_self _ _),
          e0', hE' ▸ List.mem_append_right _ (List.mem_cons_self _ _),
          t, hT' ▸ List.mem_append_right _ (List.mem_cons_of_mem _ ht3),
          hr0id, he0d, rfl⟩
    · exact ⟨r0', List.mem_append_right _ (List.mem_cons_self _ _),
        e, hE' ▸ List.mem_append_right _ (List.mem_cons_of_mem _ he3), t, ht,
        hr0id, rfl, rfl⟩
  · exact ⟨r, List.mem_append_right _ (List.mem_cons_of_mem _ hr3), e, he, t, ht,
      rfl, rfl, rfl⟩

theorem createRead_ok_elim {req : CreateReq} {db : DB} {p : BookingPlan}
    (h : createRead req db = .ok p) :
    ∃ rid date time n r0 e0 t0,
      req.restaurantId = some rid ∧ req.rdate = some date ∧ req.rtime = some time ∧
      jsToInt req.rpartySize = some n ∧ 0 < n ∧
      db.restaurants.find? (fun r => r.rid == rid) = some r0 ∧
      r0.availableTables.find? (fun e => createDateMatch date e.edate) = some e0 ∧
      e0.tables.find? (suitableFor n time) = some t0 ∧
      p = ⟨req.userId, rid, utcDay date, time, n, t0.tdid, t0.tableSize,
        updateFirst (fun e2 => createDateMatch date e2.edate)
          (fun e2 => { e2 with
            tables := updateFirst (suitableFor n time) (consumeTime time) e2.tables })
          r0.availableTables⟩ := by
  unfold createRead at h
  split at h
  case h_2 => exact absurd h (by simp)
  rename_i rid date time hrid hdate htime
  split at h
  · exact absurd h (by simp)
  split at h
  · exact absurd h (by simp)
  rename_i n hjs
  split at h
  · exact absurd h (by simp)
  rename_i hpos
  split at h
  · exact absurd h (by simp)
  rename_i r0 hfr
  split at h
  · exact absurd h (by simp)
  rename_i e0 hfe
  split at h
  · exact absurd h (by simp)
  rename_i t0 hft
  cases h
  exact ⟨rid, date, time, n, r0, e0, t0, hrid, hdate, htime, hjs, by omega, hfr, hfe, hft, rfl⟩

theorem good_createWrite {db : DB} (hg : Good db) (uid : Nat)
    {rid : Nat} {date : Int} {time : String} {n : Int}
    {r0 : Restaurant} {e0 : DateEntry} {t0 : TableDef}
    (hfr : db.restaurants.find? (fun r => r.rid == rid) = some r0)
    (hfe : r0.availableTables.find? (fun e => createDateMatch date e.edate) = some e0)
    (hft : e0.tables.find? (suitableFor n time) = some t0) :
    Good (createWrite ⟨uid, rid, utcDay date, time, n, t0.tdid, t0.tableSize,
      updateFirst (fun e2 => createDateMatch date e2.edate)
        (fun e2 => { e2 with
          tables := updateFirst (suitableFor n time) (consumeTime time) e2.tables })
        r0.availableTables⟩ db) := by
  obtain ⟨T₁, T₂, hTsplit, hTnot, hTp, hTupd⟩ := updateFirst_decomp hft (consumeTime time)
  obtain ⟨E₁, E₂, hEsplit, hEnot, hEp, hEupd⟩ := updateFirst_decomp hfe
    (fun e2 => { e2 with
      tables := updateFirst (suitableFor n time) (consumeTime time) e2.tables })
  have hr0rid : r0.rid = rid := by simpa using List.find?_some hfr
  have hday0 : utcDay e0.edate = utcDay date := by
    simpa [createDateMatch] using List.find?_some hfe
  have htime0 : time ∈ t0.availableTimes := by
    have h2 := List.find?_some hft
    simp only [suitableFor, Bool.and_eq_true] at h2
    simpa using h2.2
  have hr0mem : r0 ∈ db.restaurants := List.mem_of_find?_eq_some hfr
  have he0mem : e0 ∈ r0.availableTables := List.mem_of_find?_eq_some hfe
  have ht0mem : t0 ∈ e0.tables := List.mem_of_find?_eq_some hft
  -- rewrite the written-back availability array into its decomposed form
  rw [hEupd]
  rw [hTupd]
  obtain ⟨R₁, R₂, hRsplit, hRnot, hRp, hRupd⟩ := updateFirst_decomp hfr
    (fun r => { r with
      availableTables := E₁ ++ { e0 with tables := T₁ ++ consumeTime time t0 :: T₂ } :: E₂,
      timesBookedToday := r.timesBookedToday + 1 })
  show Good
    { restaurants :=
        updateFirst (fun r => r.rid == rid)
          (fun r => { r with
            availableTables :=
              E₁ ++ { e0 with tables := T₁ ++ consumeTime time t0 :: T₂ } :: E₂,
            timesBookedToday := r.timesBookedToday + 1 }) db.restaurants,
      bookings := db.bookings ++ [⟨db.nextBookingId, uid, rid, utcDay date * 1440, time, n,
        t0.tableSize, some t0.tdid, .confirmed⟩],
      nextBookingId := db.nextBookingId + 1 }
  rw [hRupd]
  generalize ht0'g : consumeTime time t0 = t0'
  generalize he0'g : ({ e0 with tables := T₁ ++ t0' :: T₂ } : DateEntry) = e0'
  generalize hr0'g :
    ({ r0 with
        availableTables := E₁ ++ e0' :: E₂,
        timesBookedToday := r0.timesBookedToday + 1 } : Restaurant) = r0'
  generalize hnewBg : (⟨db.nextBookingId, uid, rid, utcDay date * 1440, time, n,
    t0.tableSize, some t0.tdid, .confirmed⟩ : Booking) = newB
  have ht0'id : t0'.tdid = t0.tdid := by rw [← ht0'g]; rfl
  have ht0'times : t0'.availableTimes = t0.availableTimes.filter (fun x => !(x == time)) := by
    rw [← ht0'g]; rfl
  have he0'date : e0'.edate = e0.edate := by rw [← he0'g]
  have he0'tables : e0'.tables = T₁ ++ t0' :: T₂ := by rw [← he0'g]
  have hr0'rid : r0'.rid = r0.rid := by rw [← hr0'g]
  have hr0'tables : r0'.availableTables = E₁ ++ e0' :: E₂ := by rw [← hr0'g]
  have hnewBbid : newB.bid = db.nextBookingId := by rw [← hnewBg]
  have hnewBrid : newB.restaurantId = rid := by rw [← hnewBg]
  have hnewBdate : newB.bdate = utcDay date * 1440 := by rw [← hnewBg]
  have hnewBtime : newB.btime = time := by rw [← hnewBg]
  have hnewBtdid : newB.bookedTableDefinitionId = some t0.tdid := by rw [← hnewBg]
  have hnewBstatus : newB.status = .confirmed := by rw [← hnewBg]
  have hmemdb : ∀ x ∈ R₁, x ∈ db.restaurants := by
    intro x hx; rw [hRsplit]; exact List.mem_append_left _ hx
  have hmemdb2 : ∀ x ∈ R₂, x ∈ db.restaurants := by
    intro x hx; rw [hRsplit]; simp [hx]
  have hmono : ∀ rid2 tdid2 day2 s, confirmedAt db rid2 tdid2 day2 s →
      confirmedAt ⟨R₁ ++ r0' :: R₂, db.bookings ++ [newB], db.nextBookingId + 1⟩
        rid2 tdid2 day2 s := by
    rintro rid2 tdid2 day2 s ⟨b, hb, hsb, h1, h2, h3, h4⟩
    exact ⟨b, by simp [hb], hsb, h1, h2, h3, h4⟩
  have hreflect : ∀ rid2 tdid2 day2 s,
      confirmedAt ⟨R₁ ++ r0' :: R₂, db.bookings ++ [newB], db.nextBookingId + 1⟩
        rid2 tdid2 day2 s →
      confirmedAt db rid2 tdid2 day2 s ∨
      (newB.restaurantId = rid2 ∧ newB.bookedTableDefinitionId = some tdid2 ∧
        utcDay newB.bdate = day2 ∧ newB.btime = s) := by
    rintro rid2 tdid2 day2 s ⟨b, hb, hsb, h1, h2, h3, h4⟩
    rcases List.mem_append.mp hb with h | h
    · exact Or.inl ⟨b, h, hsb, h1, h2, h3, h4⟩
    · have hbB : b = newB := by simpa using h
      subst hbB
      exact Or.inr ⟨h1, h2, h3, h4⟩
  constructor
  case ridUniq =>
    exact pairwise_replace_middle
      (fun x => ⟨fun h => by rw [hr0'rid]; exact h, fun h => by rw [hr0'rid]; exact h⟩)
      (hRsplit ▸ hg.ridUniq)
  case dateNorm =>
    intro r' hr' e' he'
    rcases List.mem_append.mp hr' with h1 | h2
    · exact hg.dateNorm r' (hmemdb r' h1) e' he'
    rcases List.mem_cons.mp h2 with rfl | h3
    · rw [hr0'tables] at he'
      rcases List.mem_append.mp he' with he1 | he2
      · exact hg.dateNorm r0 hr0mem e' (by rw [hEsplit]; exact List.mem_append_left _ he1)
      rcases List.mem_cons.mp he2 with rfl | he3
      · rw [he0'date]; exact hg.dateNorm r0 hr0mem e0 he0mem
      · exact hg.dateNorm r0 hr0mem e' (by rw [hEsplit]; simp [he3])
    · exact hg.dateNorm r' (hmemdb2 r' h3) e' he'
  case dayUniq =>
    intro r' hr'
    rcases List.mem_append.mp hr' with h1 | h2
    · exact hg.dayUniq r' (hmemdb r' h1)
    rcases List.mem_cons.mp h2 with rfl | h3
    · rw [hr0'tables]
      exact pairwise_replace_middle
        (fun x => ⟨fun h => by rw [he0'date]; exact h, fun h => by rw [he0'date]; exact h⟩)
        (hEsplit ▸ hg.dayUniq r0 hr0mem)
    · exact hg.dayUniq r' (hmemdb2 r' h3)
  case tdidUniq =>
    intro r' hr' e' he'
    rcases List.mem_append.mp hr' with h1 | h2
    · exact hg.tdidUniq r' (hmemdb r' h1) e' he'
    rcases List.mem_cons.mp h2 with rfl | h3
    · rw [hr0'tables] at he'
      rcases List.mem_append.mp he' with he1 | he2
      · exact hg.tdidUniq r0 hr0mem e' (by rw [hEsplit]; exact List.mem_append_left _ he1)
      rcases List.mem_cons.mp he2 with rfl | he3
      · rw [he0'tables]
        exact pairwise_replace_middle
          (fun x => ⟨fun h => by rw [ht0'id]; exact h, fun h => by rw [ht0'id]; exact h⟩)
          (hTsplit ▸ hg.tdidUniq r0 hr0mem e0 he0mem)
      · exact hg.tdidUniq r0 hr0mem e' (by rw [hEsplit]; simp [he3])
    · exact hg.tdidUniq r' (hmemdb2 r' h3) e' he'
  case bidUniq =>
    rw [List.pairwise_append]
    refine ⟨hg.bidUniq, List.pairwise_singleton _ _, ?_⟩
    intro a ha b hb
    have hbB : b = newB := by simpa using hb
    subst hbB
    rw [hnewBbid]
    exact Nat.ne_of_lt (hg.bidLt a ha)
  case bidLt =>
    intro b hb
    rcases List.mem_append.mp hb with h | h
    · exact Nat.lt_succ_of_lt (hg.bidLt b h)
    · have hbB : b = newB := by simpa using h
      subst hbB
      rw [hnewBbid]
      exact Nat.lt_succ_self _
  case bdateNorm =>
    intro b hb
    rcases List.mem_append.mp hb with h | h
    · exact hg.bdateNorm b h
    · have hbB : b = newB := by simpa using h
      subst hbB
      rw [hnewBdate, utcDay_mul]
  case refs =>
    intro b hb hconf
    rcases List.mem_append.mp hb with h | h
    · obtain ⟨r, hr, hrid2, e, he, hday, t, ht, htd⟩ := hg.refs b h hconf
      obtain ⟨r', hr', e', he', t', ht', hrid', hdate', htdid'⟩ :=
        chain_surj hRsplit rfl hr0'rid hEsplit hr0'tables he0'date hTsplit he0'tables
          ht0'id r hr e he t ht
      exact ⟨r', hr', by rw [hrid']; exact hrid2, e', he',
        by rw [hdate']; exact hday, t', ht', by rw [htdid']; exact htd⟩
    · have hbB : b = newB := by simpa using h
      subst hbB
      refine ⟨r0', by simp, ?_, e0', by rw [hr0'tables]; simp, ?_, t0',
        by rw [he0'tables]; simp, ?_⟩
      · rw [hr0'rid, hr0rid, hnewBrid]
      · rw [he0'date, hnewBdate, utcDay_mul]; exact hday0
      · rw [ht0'id, hnewBtdid]
  case confUniq =>
    rw [List.pairwise_append]
    refine ⟨hg.confUniq, List.pairwise_singleton _ _, ?_⟩
    intro a ha b hb hca hcb hkey
    have hbB : b = newB := by simpa using hb
    subst hbB
    obtain ⟨hk1, hk2, hk3, hk4⟩ := hkey
    refine hg.invA r0 hr0mem e0 he0mem t0 ht0mem time htime0 ⟨a, ha, hca, ?_, ?_, ?_, ?_⟩
    · rw [hk1, hnewBrid, ← hr0rid]
    · rw [hk2, hnewBtdid]
    · rw [hk3, hnewBdate, utcDay_mul]; exact hday0.symm
    · rw [hk4, hnewBtime]
  case invA =>
    intro r' hr' e' he' t' ht' s hs hc
    rcases chain_cases hRsplit rfl hr0'rid hEsplit hr0'tables he0'date hTsplit he0'tables
        hg.ridUniq (hg.dayUniq r0 hr0mem) (hg.tdidUniq r0 hr0mem e0 he0mem)
        r' hr' e' he' t' ht' with
      ⟨rfl, rfl, rfl⟩ | ⟨r, hr, e, he, t, ht, hrid', hdate', rfl, hmis⟩
    · rw [ht0'times, List.mem_filter] at hs
      have hsne : s ≠ time := by simpa using hs.2
      rw [hr0'rid, ht0'id, he0'date] at hc
      rcases hreflect _ _ _ _ hc with hold | hnew
      · exact hg.invA r0 hr0mem e0 he0mem t0 ht0mem s hs.1 hold
      · exact hsne (hnew.2.2.2.symm.trans hnewBtime)
    · rw [hrid', hdate'] at hc
      rcases hreflect _ _ _ _ hc with hold | hnew
      · exact hg.invA r hr e he t' ht s hs hold
      · refine hmis ⟨?_, ?_, ?_⟩
        · rw [← hnew.1, hnewBrid, ← hr0rid]
        · rw [← hnew.2.2.1, hnewBdate, utcDay_mul]; exact hday0.symm
        · have h2 := hnewBtdid ▸ hnew.2.1
          exact (Option.some.inj h2).symm
  case invB =>
    intro r' hr' e' he' t' ht' b hb hbrid hbtd hbday hnc
    rcases List.mem_append.mp hb with hbold | hbnew
    · rcases chain_cases hRsplit rfl hr0'rid hEsplit hr0'tables he0'date hTsplit he0'tables
          hg.ridUniq (hg.dayUniq r0 hr0mem) (hg.tdidUniq r0 hr0mem e0 he0mem)
          r' hr' e' he' t' ht' with
        ⟨rfl, rfl, rfl⟩ | ⟨r, hr, e, he, t, ht, hrid', hdate', rfl, hmis⟩
      · by_cases hbt : b.btime = time
        · refine (hnc ⟨newB, by simp, hnewBstatus, ?_, ?_, ?_, ?_⟩).elim
          · rw [hnewBrid, hr0'rid, ← hr0rid]
          · rw [hnewBtdid, ht0'id]
          · rw [hnewBdate, utcDay_mul, he0'date]; exact hday0.symm
          · rw [hnewBtime, hbt]
        · have hncold : ¬ confirmedAt db r0.rid t0.tdid (utcDay e0.edate) b.btime := by
            intro hcf
            have h2 := hmono _ _ _ _ hcf
            rw [← hr0'rid, ← ht0'id, ← he0'date] at h2
            exact hnc h2
          have hmem0 := hg.invB r0 hr0mem e0 he0mem t0 ht0mem b hbold
            (by rw [hbrid, hr0'rid]) (by rw [hbtd, ht0'id])
            (by rw [hbday, he0'date]) hncold
          rw [ht0'times, List.mem_filter]
          exact ⟨hmem0, by simpa using hbt⟩
      · have hncold : ¬ confirmedAt db r.rid t'.tdid (utcDay e.edate) b.btime := by
          intro hcf
          have h2 := hmono _ _ _ _ hcf
          rw [← hrid', ← hdate'] at h2
          exact hnc h2
        exact hg.invB r hr e he t' ht b hbold
          (by rw [hbrid]; exact hrid') hbtd (by rw [hbday, hdate']) hncold
    · have hbB : b = newB := by simpa using hbnew
      exact (hnc ⟨newB, by simp, hnewBstatus, hbB ▸ hbrid, hbB ▸ hbtd, hbB ▸ hbday,
        (congrArg Booking.btime hbB).symm⟩).elim

theorem good_cancelRepair {db : DB} (hg : Good db)
    {b0 : Booking} (hb0 : b0 ∈ db.bookings) (hconf : b0.status = .confirmed)
    {pb : Booking → Bool} (hpb : ∀ x, pb x = true ↔ x.bid = b0.bid)
    {pr : Restaurant → Bool} (hpr : ∀ x, pr x = true ↔ x.rid = b0.restaurantId)
    {pe : DateEntry → Bool}
    (hpe : ∀ r ∈ db.restaurants, ∀ e ∈ r.availableTables,
      (pe e = true ↔ utcDay e.edate = utcDay b0.bdate))
    {pt : TableDef → Bool}
    (hpt : ∀ id, b0.bookedTableDefinitionId = some id → ∀ t, (pt t = true ↔ t.tdid = id))
    {fT : TableDef → TableDef}
    (hfT : ∀ t, (fT t).tdid = t.tdid ∧
      ∀ s, s ∈ (fT t).availableTimes ↔ s ∈ t.availableTimes ∨ s = b0.btime) :
    Good
      { restaurants :=
          updateFirst pr
            (fun r => { r with
              availableTables :=
                updateFirst pe
                  (fun e => { e with tables := updateFirst pt fT e.tables })
                  r.availableTables }) db.restaurants,
        bookings := updateFirst pb (fun x => { x with status := .cancelled }) db.bookings,
        nextBookingId := db.nextBookingId } := by
  obtain ⟨r1, hr1, hrid1, e1, he1, hday1, t1, ht1, htd1⟩ := hg.refs b0 hb0 hconf
  have hfb : db.bookings.find? pb = some b0 :=
    find?_eq_of_mem_key Booking.bid hg.bidUniq hb0 (fun x _ => hpb x)
  have hfr : db.restaurants.find? pr = some r1 :=
    find?_eq_of_mem_key Restaurant.rid hg.ridUniq hr1
      (fun x _ => by rw [hpr x, hrid1])
  have hfe : r1.availableTables.find? pe = some e1 :=
    find?_eq_of_mem_key (fun e => utcDay e.edate) (hg.dayUniq r1 hr1) he1
      (fun x hx => by
        show pe x = true ↔ utcDay x.edate = utcDay e1.edate
        rw [hpe r1 hr1 x hx, hday1])
  have hfte : e1.tables.find? pt = some t1 :=
    find?_eq_of_mem_key TableDef.tdid (hg.tdidUniq r1 hr1 e1 he1) ht1
      (fun x _ => hpt t1.tdid htd1.symm x)
  obtain ⟨B₁, B₂, hBsplit, hBnot, hBp, hBupd⟩ := updateFirst_decomp hfb
    (fun x => { x with status := .cancelled })
  obtain ⟨T₁, T₂, hTsplit, hTnot, hTp, hTupd⟩ := updateFirst_decomp hfte fT
  obtain ⟨E₁, E₂, hEsplit, hEnot, hEp, hEupd⟩ := updateFirst_decomp hfe
    (fun e => { e with tables := updateFirst pt fT e.tables })
  obtain ⟨R₁, R₂, hRsplit, hRnot, hRp, hRupd⟩ := updateFirst_decomp hfr
    (fun r => { r with
      availableTables :=
        updateFirst pe (fun e => { e with tables := updateFirst pt fT e.tables })
          r.availableTables })
  rw [hRupd, hBupd, hEupd, hTupd]
  generalize ht1'g : fT t1 = t1'
  generalize he1'g : ({ e1 with tables := T₁ ++ t1' :: T₂ } : DateEntry) = e1'
  generalize hr1'g : ({ r1 with availableTables := E₁ ++ e1' :: E₂ } : Restaurant) = r1'
  generalize hb0'g : ({ b0 with status := .cancelled } : Booking) = b0'
  have ht1'id : t1'.tdid = t1.tdid := by rw [← ht1'g]; exact (hfT t1).1
  have ht1'mem : ∀ s, s ∈ t1'.availableTimes ↔ s ∈ t1.availableTimes ∨ s = b0.btime := by
    rw [← ht1'g]; exact (hfT t1).2
  have he1'date : e1'.edate = e1.edate := by rw [← he1'g]
  have he1'tables : e1'.tables = T₁ ++ t1' :: T₂ := by rw [← he1'g]
  have hr1'rid : r1'.rid = r1.rid := by rw [← hr1'g]
  have hr1'tables : r1'.availableTables = E₁ ++ e1' :: E₂ := by rw [← hr1'g]
  have hb0'bid : b0'.bid = b0.bid := by rw [← hb0'g]
  have hb0'rid : b0'.restaurantId = b0.restaurantId := by rw [← hb0'g]
  have hb0'date : b0'.bdate = b0.bdate := by rw [← hb0'g]
  have hb0'time : b0'.btime = b0.btime := by rw [← hb0'g]
  have hb0'td : b0'.bookedTableDefinitionId = b0.bookedTableDefinitionId := by rw [← hb0'g]
  have hb0'status : b0'.status = .cancelled := by rw [← hb0'g]
  have hmemdb : ∀ x ∈ R₁, x ∈ db.restaurants := by
    intro x hx; rw [hRsplit]; exact List.mem_append_left _ hx
  have hmemdb2 : ∀ x ∈ R₂, x ∈ db.restaurants := by
    intro x hx; rw [hRsplit]; simp [hx]
  have hmemb : ∀ x ∈ B₁, x ∈ db.bookings := by
    intro x hx; rw [hBsplit]; exact List.mem_append_left _ hx
  have hmemb2 : ∀ x ∈ B₂, x ∈ db.bookings := by
    intro x hx; rw [hBsplit]; simp [hx]
  have hbne : ∀ x, (x ∈ B₁ ∨ x ∈ B₂) → x ≠ b0 := by
    intro x hx heq
    have hmid := pairwise_middle (hBsplit ▸ hg.bidUniq)
    rcases hx with hx | hx
    · exact (hmid.1 x hx) (congrArg Booking.bid heq)
    · exact (hmid.2 x hx) (congrArg Booking.bid heq).symm
  have htransfer : ∀ rid2 tdid2 day2 s, confirmedAt db rid2 tdid2 day2 s →
      confirmedAt ⟨R₁ ++ r1' :: R₂, B₁ ++ b0' :: B₂, db.nextBookingId⟩ rid2 tdid2 day2 s ∨
      (rid2 = b0.restaurantId ∧ some tdid2 = b0.bookedTableDefinitionId ∧
        day2 = utcDay b0.bdate ∧ s = b0.btime) := by
    rintro rid2 tdid2 day2 s ⟨b, hb, hsb, h1, h2, h3, h4⟩
    by_cases hbeq : b = b0
    · subst hbeq
      exact Or.inr ⟨h1.symm, h2.symm, h3.symm, h4.symm⟩
    · have hbmem : b ∈ B₁ ++ b0' :: B₂ := by
        rw [hBsplit] at hb
        rcases List.mem_append.mp hb with h | h
        · exact List.mem_append_left _ h
        rcases List.mem_cons.mp h with rfl | h
        · exact absurd rfl hbeq
        · exact List.mem_append_right _ (List.mem_cons_of_mem _ h)
      exact Or.inl ⟨b, hbmem, hsb, h1, h2, h3, h4⟩
  have hnoother : ∀ b ∈ db.bookings, b ≠ b0 → b.status = .confirmed →
      ¬(b.restaurantId = b0.restaurantId ∧
        b.bookedTableDefinitionId = b0.bookedTableDefinitionId ∧
        utcDay b.bdate = utcDay b0.bdate ∧ b.btime = b0.btime) := by
    intro b hb hne hcb hkey
    rcases pairwise_of_mem_ne hg.confUniq hb hb0 hne with h | h
    · exact h hcb hconf hkey
    · exact h hconf hcb ⟨hkey.1.symm, hkey.2.1.symm, hkey.2.2.1.symm, hkey.2.2.2.symm⟩
  constructor
  case ridUniq =>
    exact pairwise_replace_middle
      (fun x => ⟨fun h => by rw [hr1'rid]; exact h, fun h => by rw [hr1'rid]; exact h⟩)
      (hRsplit ▸ hg.ridUniq)
  case dateNorm =>
    intro r' hr' e' he'
    rcases List.mem_append.mp hr' with h1 | h2
    · exact hg.dateNorm r' (hmemdb r' h1) e' he'
    rcases List.mem_cons.mp h2 with rfl | h3
    · rw [hr1'tables] at he'
      rcases List.mem_append.mp he' with he2 | he2
      · exact hg.dateNorm r1 hr1 e' (by rw [hEsplit]; exact List.mem_append_left _ he2)
      rcases List.mem_cons.mp he2 with rfl | he3
      · rw [he1'date]; exact hg.dateNorm r1 hr1 e1 he1
      · exact hg.dateNorm r1 hr1 e' (by rw [hEsplit]; simp [he3])
    · exact hg.dateNorm r' (hmemdb2 r' h3) e' he'
  case dayUniq =>
    intro r' hr'
    rcases List.mem_append.mp hr' with h1 | h2
    · exact hg.dayUniq r' (hmemdb r' h1)
    rcases List.mem_cons.mp h2 with rfl | h3
    · rw [hr1'tables]
      exact pairwise_replace_middle
        (fun x => ⟨fun h => by rw [he1'date]; exact h, fun h => by rw [he1'date]; exact h⟩)
        (hEsplit ▸ hg.dayUniq r1 hr1)
    · exact hg.dayUniq r' (hmemdb2 r' h3)
  case tdidUniq =>
    intro r' hr' e' he'
    rcases List.mem_append.mp hr' with h1 | h2
    · exact hg.tdidUniq r' (hmemdb r' h1) e' he'
    rcases List.mem_cons.mp h2 with rfl | h3
    · rw [hr1'tables] at he'
      rcases List.mem_append.mp he' with he2 | he2
      · exact hg.tdidUniq r1 hr1 e' (by rw [hEsplit]; exact List.mem_append_left _ he2)
      rcases List.mem_cons.mp he2 with rfl | he3
      · rw [he1'tables]
        exact pairwise_replace_middle
          (fun x => ⟨fun h => by rw [ht1'id]; exact h, fun h => by rw [ht1'id]; exact h⟩)
          (hTsplit ▸ hg.tdidUniq r1 hr1 e1 he1)
      · exact hg.tdidUniq r1 hr1 e' (by rw [hEsplit]; simp [he3])
    · exact hg.tdidUniq r' (hmemdb2 r' h3) e' he'
  case bidUniq =>
    exact pairwise_replace_middle
      (fun x => ⟨fun h => by rw [hb0'bid]; exact h, fun h => by rw [hb0'bid]; exact h⟩)
      (hBsplit ▸ hg.bidUniq)
  case bidLt =>
    intro b hb
    rcases List.mem_append.mp hb with h | h
    · exact hg.bidLt b (hmemb b h)
    rcases List.mem_cons.mp h with rfl | h
    · rw [hb0'bid]; exact hg.bidLt b0 hb0
    · exact hg.bidLt b (hmemb2 b h)
  case bdateNorm =>
    intro b hb
    rcases List.mem_append.mp hb with h | h
    · exact hg.bdateNorm b (hmemb b h)
    rcases List.mem_cons.mp h with rfl | h
    · rw [hb0'date]; exact hg.bdateNorm b0 hb0
    · exact hg.bdateNorm b (hmemb2 b h)
  case refs =>
    intro b hb hcb
    have hbdb : b ∈ db.bookings := by
      rcases List.mem_append.mp hb with h | h
      · exact hmemb b h
      rcases List.mem_cons.mp h with rfl | h
      · rw [hb0'status] at hcb; cases hcb
      · exact hmemb2 b h
    obtain ⟨r, hr, hrid2, e, he, hday, t, ht, htd⟩ := hg.refs b hbdb hcb
    obtain ⟨r', hr', e', he', t', ht', hrid', hdate', htdid'⟩ :=
      chain_surj hRsplit rfl hr1'rid hEsplit hr1'tables he1'date hTsplit he1'tables
        ht1'id r hr e he t ht
    exact ⟨r', hr', by rw [hrid']; exact hrid2, e', he',
      by rw [hdate']; exact hday, t', ht', by rw [htdid']; exact htd⟩
  case confUniq =>
    refine pairwise_replace_middle (fun x => ⟨fun _ => ?_, fun _ => ?_⟩)
      (hBsplit ▸ hg.confUniq)
    · intro _ hc0
      rw [hb0'status] at hc0
      cases hc0
    · intro hc0
      rw [hb0'status] at hc0
      cases hc0
  case invA =>
    intro r' hr' e' he' t' ht' s hs hc
    obtain ⟨w, hw, hcw, hw1, hw2, hw3, hw4⟩ := hc
    have hw' : w ∈ db.bookings ∧ w ≠ b0 := by
      rcases List.mem_append.mp hw with h | h
      · exact ⟨hmemb w h, hbne w (Or.inl h)⟩
      rcases List.mem_cons.mp h with rfl | h
      · rw [hb0'status] at hcw; cases hcw
      · exact ⟨hmemb2 w h, hbne w (Or.inr h)⟩
    rcases chain_cases hRsplit rfl hr1'rid hEsplit hr1'tables he1'date hTsplit he1'tables
        hg.ridUniq (hg.dayUniq r1 hr1) (hg.tdidUniq r1 hr1 e1 he1)
        r' hr' e' he' t' ht' with
      ⟨rfl, rfl, rfl⟩ | ⟨r, hr, e, he, t, ht, hrid', hdate', rfl, hmis⟩
    · rw [ht1'mem] at hs
      rcases hs with hs | rfl
      · exact hg.invA r1 hr1 e1 he1 t1 ht1 s hs
          ⟨w, hw'.1, hcw, by rw [hw1]; exact hr1'rid, by rw [hw2, ht1'id],
            by rw [hw3, he1'date], hw4⟩
      · refine hnoother w hw'.1 hw'.2 hcw ⟨?_, ?_, ?_, ?_⟩
        · rw [hw1, hr1'rid]; exact hrid1
        · rw [hw2, ht1'id]; exact htd1
        · rw [hw3, he1'date]; exact hday1
        · exact hw4
    · exact hg.invA r hr e he t' ht s hs
        ⟨w, hw'.1, hcw, by rw [hw1]; exact hrid', hw2, by rw [hw3, hdate'], hw4⟩
  case invB =>
    intro r' hr' e' he' t' ht' b hb hbrid hbtd hbday hnc
    have hbcase : (b ∈ db.bookings ∧ b ≠ b0) ∨ b = b0' := by
      rcases List.mem_append.mp hb with h | h
      · exact Or.inl ⟨hmemb b h, hbne b (Or.inl h)⟩
      rcases List.mem_cons.mp h with rfl | h
      · exact Or.inr rfl
      · exact Or.inl ⟨hmemb2 b h, hbne b (Or.inr h)⟩
    rcases chain_cases hRsplit rfl hr1'rid hEsplit hr1'tables he1'date hTsplit he1'tables
        hg.ridUniq (hg.dayUniq r1 hr1) (hg.tdidUniq r1 hr1 e1 he1)
        r' hr' e' he' t' ht' with
      ⟨rfl, rfl, rfl⟩ | ⟨r, hr, e, he, t, ht, hrid', hdate', rfl, hmis⟩
    · by_cases hbt : b.btime = b0.btime
      · rw [ht1'mem]
        exact Or.inr hbt
      · rcases hbcase with ⟨hbdb, hbneq⟩ | rfl
        · have hncdb : ¬ confirmedAt db r1.rid t1.tdid (utcDay e1.edate) b.btime := by
            intro hcf
            rcases htransfer _ _ _ _ hcf with hpost | hkey
            · refine hnc ?_
              rwa [← hr1'rid, ← ht1'id, ← he1'date] at hpost
            · exact hbt hkey.2.2.2
          have hmem1 := hg.invB r1 hr1 e1 he1 t1 ht1 b hbdb
            (by rw [hbrid, hr1'rid]) (by rw [hbtd, ht1'id]) (by rw [hbday, he1'date]) hncdb
          rw [ht1'mem]
          exact Or.inl hmem1
        · exact absurd hb0'time hbt
    · rcases hbcase with ⟨hbdb, hbneq⟩ | rfl
      · have hncdb : ¬ confirmedAt db r.rid t'.tdid (utcDay e.edate) b.btime := by
          intro hcf
          rcases htransfer _ _ _ _ hcf with hpost | hkey
          · refine hnc ?_
            rwa [← hrid', ← hdate'] at hpost
          · refine hmis ⟨?_, ?_, ?_⟩
            · rw [hkey.1, ← hrid1]
            · rw [hkey.2.2.1, ← hday1]
            · have h5 := hkey.2.1.trans htd1.symm
              exact Option.some.inj h5
        exact hg.invB r hr e he t' ht b hbdb
          (by rw [hbrid]; exact hrid') hbtd (by rw [hbday, hdate']) hncdb
      · refine (hmis ⟨?_, ?_, ?_⟩).elim
        · have h6 : b0.restaurantId = r.rid := by rw [← hb0'rid, hbrid]; exact hrid'
          rw [hrid1]
          exact h6.symm
        · have h7 : utcDay b0.bdate = utcDay e.edate := by rw [← hb0'date, hbday, hdate']
          rw [hday1]
          exact h7.symm
        · have h8 : some t'.tdid = some t1.tdid := by rw [← hbtd, hb0'td, ← htd1]
          exact Option.some.inj h8

theorem good_create (req : CreateReq) {db : DB} (hg : Good db) :
    Good (createBooking req db).2 := by
  unfold createBooking
  cases hcr : createRead req db with
  | fail e => exact hg
  | ok p =>
    obtain ⟨rid, date, time, n, r0, e0, t0, hrid, hdate, htime, hjs, hn, hfr, hfe, hft, hp⟩ :=
      createRead_ok_elim hcr
    subst hp
    exact good_createWrite hg req.userId hfr hfe hft

theorem good_cancelV1 (tz : Int) (bookingId : Nat) (u : User) {db : DB} (hg : Good db) :
    Good (cancelBookingV1 tz bookingId u db).2 := by
  unfold cancelBookingV1
  split
  · exact hg
  rename_i b0 hfb
  split
  · exact hg
  split
  · exact hg
  rename_i hauth hcanc
  have hconf : b0.status = .confirmed := by
    cases hstat : b0.status
    · rfl
    · rw [hstat] at hcanc
      simp [isCancelled] at hcanc
  have hb0mem : b0 ∈ db.bookings := List.mem_of_find?_eq_some hfb
  have hbn := hg.bdateNorm b0 hb0mem
  refine good_cancelRepair hg hb0mem hconf ?_ ?_ ?_ ?_ ?_
  · intro x
    simp
  · intro x
    simp
  · intro r hr e he
    exact cancelV1DateMatch_day hbn (hg.dateNorm r hr e he)
  · intro id hid t
    simp [tdidMatchV1, hid]
  · intro t
    exact ⟨rfl, fun s => by simp [releaseV1]⟩

theorem good_cancelV2 (bookingId : Nat) (u : User) {db : DB} (hg : Good db) :
    Good (cancelBookingV2 bookingId u db).2 := by
  unfold cancelBookingV2
  split
  · exact hg
  rename_i b0 hfb
  have hp := List.find?_some hfb
  simp only [Bool.and_eq_true] at hp
  have hconf : b0.status = .confirmed := by
    cases hstat : b0.status
    · rfl
    · rw [hstat] at hp
      simp [isCancelled] at hp
  have hb0mem : b0 ∈ db.bookings := List.mem_of_find?_eq_some hfb
  refine good_cancelRepair hg hb0mem hconf ?_ ?_ ?_ ?_ ?_
  · intro x
    simp
  · intro x
    simp
  · intro r hr e he
    simp [cancelV2DateMatch]
  · intro id hid t
    simp [tableMatchV2, hid]
  · intro t
    refine ⟨?_, ?_⟩
    · unfold releaseV2
      split <;> rfl
    · intro s
      unfold releaseV2
      split
      · rename_i hcont
        constructor
        · exact Or.inl
        · rintro (h | rfl)
          · exact h
          · simpa using hcont
      · show s ∈ sortTimes (t.availableTimes ++ [b0.btime]) ↔ _
        rw [sortTimes_mem]
        simp

theorem goodApplyOp {db : DB} (hg : Good db) (op : Op) : Good (applyOp db op) := by
  cases op with
  | create req => exact good_create req hg
  | cancelA tz bookingId u => exact good_cancelV1 tz bookingId u hg
  | cancelB bookingId u => exact good_cancelV2 bookingId u hg

theorem goodApplyOps {db : DB} (hg : Good db) (ops : List Op) :
    Good (applyOps db ops) := by
  induction ops generalizing db with
  | nil => exact hg
  | cons op rest ih => exact ih (goodApplyOp hg op)

/-!
Claim theorems.
-/

/-- C1 (counterexample): as literally stated — quantifying over every time
string S — the invariant is false: in a reachable well-formed state, the
string "19:00" is neither in the table's `availableTimes` nor consumed by any
confirmed booking, so the right-hand side of the claimed equivalence holds
while the left-hand side fails. -/
theorem c1_counterexample :
    Good exDB ∧
    exRestaurant ∈ (applyOps exDB []).restaurants ∧
    (⟨0, [exTable]⟩ : DateEntry) ∈ exRestaurant.availableTables ∧
    exTable ∈ (⟨0, [exTable]⟩ : DateEntry).tables ∧
    ¬ (("19:00" ∈ exTable.availableTimes) ↔
        ¬ confirmedAt (applyOps exDB []) exRestaurant.rid exTable.tdid
          (utcDay (0 : Int)) "19:00") := by
  refine ⟨by constructor <;> decide, by decide, by decide, by decide, by decide⟩

/-- C1 (amended): in every state reached from a well-formed store by any
sequence of CreateBooking and CancelBooking requests (either cancellation
revision), and for every restaurant R, date entry on day D, table definition
T and time S that is either currently offered by T or referenced by some
booking consuming T on D: S is in T's `availableTimes` iff no confirmed
booking holds (R, T's id, D, S). -/
theorem slotBookingInvariant {db0 : DB} (hg : Good db0) (ops : List Op)
    (r : Restaurant) (e : DateEntry) (t : TableDef) (s : String)
    (hr : r ∈ (applyOps db0 ops).restaurants) (he : e ∈ r.availableTables)
    (ht : t ∈ e.tables)
    (hs : s ∈ t.availableTimes ∨ ∃ b ∈ (applyOps db0 ops).bookings,
      b.restaurantId = r.rid ∧ b.bookedTableDefinitionId = some t.tdid ∧
      utcDay b.bdate = utcDay e.edate ∧ b.btime = s) :
    s ∈ t.availableTimes ↔
      ¬ confirmedAt (applyOps db0 ops) r.rid t.tdid (utcDay e.edate) s := by
  have hgf := goodApplyOps hg ops
  constructor
  · intro hmem
    exact hgf.invA r hr e he t ht s hmem
  · intro hnc
    rcases hs with hmem | ⟨b, hb, h1, h2, h3, h4⟩
    · exact hmem
    · have hmem := hgf.invB r hr e he t ht b hb h1 h2 h3 (by rw [h4]; exact hnc)
      rwa [h4] at hmem

/-- C1 (witness): the amended invariant instantiated at a concrete reachable
state. -/
theorem slotBookingInvariant_witness :
    "18:00" ∈ exTable.availableTimes ↔
      ¬ confirmedAt (applyOps exDB []) exRestaurant.rid exTable.tdid
        (utcDay (0 : Int)) "18:00" :=
  slotBookingInvariant (by constructor <;> decide) [] exRestaurant ⟨0, [exTable]⟩
    exTable "18:00" (by decide) (by decide) (by decide) (Or.inl (by decide))

theorem updateFirst_middle {α} {p : α → Bool} {l₁ l₂ : List α} {a : α}
    (h1 : ∀ x ∈ l₁, p x = false) (h2 : p a = true) (f : α → α) :
    updateFirst p f (l₁ ++ a :: l₂) = l₁ ++ f a :: l₂ := by
  induction l₁ with
  | nil => simp [updateFirst, h2]
  | cons x xs ih =>
    have hx := h1 x (List.mem_cons_self x xs)
    simp only [List.cons_append, updateFirst, hx, Bool.false_eq_true, if_false,
      List.cons.injEq, true_and]
    exact ih fun y hy => h1 y (List.mem_cons_of_mem x hy)

theorem findTimes_eq {db : DB} {R₁ R₂ : List Restaurant} {r : Restaurant}
    {E₁ E₂ : List DateEntry} {e : DateEntry} {T₁ T₂ : List TableDef} {t : TableDef}
    {rid : Nat} {day : Int} {tdid : Nat}
    (hres : db.restaurants = R₁ ++ r :: R₂)
    (hR1 : ∀ x ∈ R₁, (x.rid == rid) = false) (hr : r.rid = rid)
    (hE : r.availableTables = E₁ ++ e :: E₂)
    (hE1 : ∀ x ∈ E₁, (utcDay x.edate == day) = false) (he : utcDay e.edate = day)
    (hT : e.tables = T₁ ++ t :: T₂)
    (hT1 : ∀ x ∈ T₁, (x.tdid == tdid) = false) (ht : t.tdid = tdid) :
    findTimes db rid day tdid = some t.availableTimes := by
  unfold findTimes
  simp only [hres, find?_middle hR1 (show (r.rid == rid) = true by simp [hr]), hE,
    find?_middle hE1 (show (utcDay e.edate == day) = true by simp [he]),
    hT, find?_middle hT1 (show (t.tdid == tdid) = true by simp [ht])]

theorem filter_push_perm {l : List String} {s : String} (hnd : l.Nodup) (hs : s ∈ l) :
    (l.filter (fun x => !(x == s)) ++ [s]).Perm l := by
  have hfilter : l.filter (fun x => !(x == s)) = l.erase s := by
    rw [List.Nodup.erase_eq_filter hnd]
    rfl
  rw [hfilter]
  exact (List.perm_append_singleton s _).trans (List.perm_cons_erase hs).symm

theorem createBooking_ok_elim {req : CreateReq} {db : DB} {b : Booking} {db₁ : DB}
    (h : createBooking req db = (.ok b, db₁)) :
    ∃ p, createRead req db = .ok p ∧ b = mkBooking p db.nextBookingId ∧
      db₁ = createWrite p db := by
  unfold createBooking at h
  cases hcr : createRead req db with
  | fail e =>
    rw [hcr] at h
    simp at h
  | ok p =>
    rw [hcr] at h
    injection h with h1 h2
    injection h1 with h1
    exact ⟨p, rfl, h1.symm, h2.symm⟩

/-- C2 (counterexample): with the first revision of `cancelBooking`, a
successful CreateBooking followed immediately by a successful CancelBooking
of the same booking returns the same elements but not in the original
chronological order: the cancelled slot is pushed to the end. -/
theorem c2_counterexample :
    (createBooking exReq exDB).1 =
      CreateOut.ok ⟨0, 7, 1, 0, "18:00", 4, 4, some 5, .confirmed⟩ ∧
    findTimes exDB 1 0 5 = some ["18:00", "18:30"] ∧
    (cancelBookingV1 0 0 ⟨7, Role.customer⟩ (createBooking exReq exDB).2).1 =
      CancelOutV1.ok ∧
    findTimes (cancelBookingV1 0 0 ⟨7, Role.customer⟩ (createBooking exReq exDB).2).2
      1 0 5 = some ["18:30", "18:00"] ∧
    (["18:30", "18:00"] : List String) ≠ ["18:00", "18:30"] := by
  decide

/-- C2 (amended): starting from a well-formed store whose booked table holds
a chronologically sorted duplicate-free slot list, a successful CreateBooking
followed immediately by a successful CancelBooking of that booking restores
the table's `availableTimes` exactly (same elements, same order) under the
second cancellation revision; under the first revision it restores the same
elements as a permutation, with the released slot appended at the end. -/
theorem roundTripRestoresTimes {db : DB} (hg : Good db) {req : CreateReq} {b : Booking}
    {db₁ : DB} (h1 : createBooking req db = (.ok b, db₁)) {tdid : Nat}
    (htd : b.bookedTableDefinitionId = some tdid) {l₀ : List String}
    (hl : findTimes db b.restaurantId (utcDay b.bdate) tdid = some l₀)
    (hsorted : l₀.Pairwise (fun a c => timeKey a < timeKey c)) :
    (∀ u db₂, u.uid = b.userId → cancelBookingV2 b.bid u db₁ = (.ok, db₂) →
      findTimes db₂ b.restaurantId (utcDay b.bdate) tdid = some l₀) ∧
    (∀ tz u2 db₃, cancelBookingV1 tz b.bid u2 db₁ = (.ok, db₃) →
      ∃ l₁, findTimes db₃ b.restaurantId (utcDay b.bdate) tdid = some l₁ ∧
        l₁.Perm l₀) := by
  obtain ⟨p, hcr, hb, hdb₁d⟩ := createBooking_ok_elim h1
  obtain ⟨rid, date, time, n, r0, e0, t0, hrid, hdate, htime, hjs, hn, hfr, hfe, hft, hp⟩ :=
    createRead_ok_elim hcr
  have hbrid : b.restaurantId = rid := by rw [hb, hp]; rfl
  have hbdate : b.bdate = utcDay date * 1440 := by rw [hb, hp]; rfl
  have hbday : utcDay b.bdate = utcDay date := by rw [hbdate, utcDay_mul]
  have hbnorm : b.bdate = utcDay b.bdate * 1440 := by rw [hbdate, utcDay_mul]
  have hbtime : b.btime = time := by rw [hb, hp]; rfl
  have hbbid : b.bid = db.nextBookingId := by rw [hb]; rfl
  have hbstat : b.status = .confirmed := by rw [hb]; rfl
  have hbtd0 : b.bookedTableDefinitionId = some t0.tdid := by rw [hb, hp]; rfl
  have htdid0 : tdid = t0.tdid := Option.some.inj (htd.symm.trans hbtd0)
  subst htdid0
  have hr0rid : r0.rid = rid := by simpa using List.find?_some hfr
  have hday0 : utcDay e0.edate = utcDay date := by
    simpa [createDateMatch] using List.find?_some hfe
  have htime0 : time ∈ t0.availableTimes := by
    have h2 := List.find?_some hft
    simp only [suitableFor, Bool.and_eq_true] at h2
    simpa using h2.2
  have hr0mem : r0 ∈ db.restaurants := List.mem_of_find?_eq_some hfr
  have he0mem : e0 ∈ r0.availableTables := List.mem_of_find?_eq_some hfe
  have ht0mem : t0 ∈ e0.tables := List.mem_of_find?_eq_some hft
  obtain ⟨T₁, T₂, hTsplit, hTnot, hTp, hTupd⟩ := updateFirst_decomp hft (consumeTime time)
  obtain ⟨E₁, E₂, hEsplit, hEnot, hEp, hEupd⟩ := updateFirst_decomp hfe
    (fun e2 => { e2 with
      tables := updateFirst (suitableFor n time) (consumeTime time) e2.tables })
  obtain ⟨R₁, R₂, hRsplit, hRnot, hRp, hRupd⟩ := updateFirst_decomp hfr
    (fun r => { r with
      availableTables :=
        updateFirst (fun e2 => createDateMatch date e2.edate)
          (fun e2 => { e2 with
            tables := updateFirst (suitableFor n time) (consumeTime time) e2.tables })
          r.availableTables,
      timesBookedToday := r.timesBookedToday + 1 })
  have hmidT := pairwise_middle (hTsplit ▸ hg.tdidUniq r0 hr0mem e0 he0mem)
  have hT1' : ∀ x ∈ T₁, (x.tdid == t0.tdid) = false := by
    intro x hx
    rw [beq_eq_false_iff_ne]
    exact hmidT.1 x hx
  have hE1' : ∀ x ∈ E₁, (utcDay x.edate == utcDay date) = false := fun x hx => hEnot x hx
  -- the content of l₀
  have hl0 : l₀ = t0.availableTimes := by
    have hcomp : findTimes db b.restaurantId (utcDay b.bdate) t0.tdid =
        some t0.availableTimes := by
      rw [hbrid, hbday]
      exact findTimes_eq hRsplit hRnot hr0rid hEsplit hE1' hday0 hTsplit hT1' rfl
    exact Option.some.inj (hl.symm.trans hcomp)
  have hsorted0 : t0.availableTimes.Pairwise (fun a c => timeKey a < timeKey c) :=
    hl0 ▸ hsorted
  have hnd0 : t0.availableTimes.Nodup :=
    hsorted0.imp fun h heq => Nat.ne_of_lt h (congrArg timeKey heq)
  -- the state written by the create
  have hdb₁rs : db₁.restaurants =
      R₁ ++ { r0 with
        availableTables :=
          E₁ ++ { e0 with tables := T₁ ++ consumeTime time t0 :: T₂ } :: E₂,
        timesBookedToday := r0.timesBookedToday + 1 } :: R₂ := by
    rw [hdb₁d, hp]
    show updateFirst (fun r => r.rid == rid)
      (fun r => { r with
        availableTables :=
          updateFirst (fun e2 => createDateMatch date e2.edate)
            (fun e2 => { e2 with
              tables := updateFirst (suitableFor n time) (consumeTime time) e2.tables })
            r0.availableTables,
        timesBookedToday := r.timesBookedToday + 1 }) db.restaurants = _
    simp only [hEupd, hTupd]
    rw [hRsplit]
    exact updateFirst_middle hRnot (by simp [hr0rid]) _
  have hdb₁bk : db₁.bookings = db.bookings ++ [b] := by
    rw [hdb₁d, hb]
    rfl
  have hfindb : ∀ q : Booking → Bool, q b = true →
      (∀ x ∈ db.bookings, (x.bid == b.bid) = false) := by
    intro _ _ x hx
    rw [beq_eq_false_iff_ne, hbbid]
    exact Nat.ne_of_lt (hg.bidLt x hx)
  constructor
  · -- second revision restores exactly
    intro u db₂ huid h2
    unfold cancelBookingV2 at h2
    have hfind : db₁.bookings.find?
        (fun x => x.bid == b.bid && x.userId == u.uid && !(isCancelled x.status)) =
        some b := by
      rw [hdb₁bk]
      refine find?_middle ?_ ?_
      · intro x hx
        have hne : (x.bid == b.bid) = false := by
          rw [beq_eq_false_iff_ne, hbbid]
          exact Nat.ne_of_lt (hg.bidLt x hx)
        simp [hne]
      · simp [huid, hbstat, isCancelled]
    rw [hfind] at h2
    injection h2 with h2a h2b
    have hrel : releaseV2 b (consumeTime time t0) =
        { t0 with availableTimes :=
            sortTimes ((t0.availableTimes.filter (fun x => !(x == time))) ++ [time]) } := by
      unfold releaseV2
      rw [if_neg]
      · rw [hbtime]
        rfl
      · rw [hbtime]
        simp [consumeTime, List.mem_filter]
    have stepT2 : updateFirst (tableMatchV2 b) (releaseV2 b)
        (T₁ ++ consumeTime time t0 :: T₂) =
        T₁ ++ releaseV2 b (consumeTime time t0) :: T₂ :=
      updateFirst_middle
        (fun x hx => by
          simp only [tableMatchV2, hbtd0]
          rw [beq_eq_false_iff_ne]
          exact hmidT.1 x hx)
        (by simp [tableMatchV2, hbtd0, consumeTime]) _
    have stepE2 : updateFirst (fun e => cancelV2DateMatch b.bdate e.edate)
        (fun e => { e with
          tables := updateFirst (tableMatchV2 b) (releaseV2 b) e.tables })
        (E₁ ++ ({ e0 with tables := T₁ ++ consumeTime time t0 :: T₂ } : DateEntry) :: E₂) =
        E₁ ++ ({ e0 with
          tables := updateFirst (tableMatchV2 b) (releaseV2 b)
            (T₁ ++ consumeTime time t0 :: T₂) } : DateEntry) :: E₂ :=
      updateFirst_middle
        (fun x hx => by
          show (utcDay x.edate == utcDay b.bdate) = false
          rw [hbday]
          exact hEnot x hx)
        (by
          show (utcDay e0.edate == utcDay b.bdate) = true
          rw [hbday]
          simp [hday0]) _
    have stepR2 : updateFirst (fun r => r.rid == b.restaurantId)
        (fun r => { r with
          availableTables :=
            updateFirst (fun e => cancelV2DateMatch b.bdate e.edate)
              (fun e => { e with
                tables := updateFirst (tableMatchV2 b) (releaseV2 b) e.tables })
              r.availableTables })
        (R₁ ++ ({ r0 with
          availableTables :=
            E₁ ++ ({ e0 with tables := T₁ ++ consumeTime time t0 :: T₂ } : DateEntry) :: E₂,
          timesBookedToday := r0.timesBookedToday + 1 } : Restaurant) :: R₂) =
        R₁ ++ ({ r0 with
          availableTables :=
            updateFirst (fun e => cancelV2DateMatch b.bdate e.edate)
              (fun e => { e with
                tables := updateFirst (tableMatchV2 b) (releaseV2 b) e.tables })
              (E₁ ++ ({ e0 with
                tables := T₁ ++ consumeTime time t0 :: T₂ } : DateEntry) :: E₂),
          timesBookedToday := r0.timesBookedToday + 1 } : Restaurant) :: R₂ :=
      updateFirst_middle
        (fun x hx => by
          show (x.rid == b.restaurantId) = false
          rw [hbrid]
          exact hRnot x hx)
        (by
          show (r0.rid == b.restaurantId) = true
          rw [hbrid]
          simp [hr0rid]) _
    have hres2 : db₂.restaurants =
        R₁ ++ ({ r0 with
          availableTables :=
            E₁ ++ ({ e0 with
              tables := T₁ ++ releaseV2 b (consumeTime time t0) :: T₂ } : DateEntry) :: E₂,
          timesBookedToday := r0.timesBookedToday + 1 } : Restaurant) :: R₂ := by
      rw [← h2b]
      show updateFirst (fun r => r.rid == b.restaurantId)
        (fun r => { r with
          availableTables :=
            updateFirst (fun e => cancelV2DateMatch b.bdate e.edate)
              (fun e => { e with
                tables := updateFirst (tableMatchV2 b) (releaseV2 b) e.tables })
              r.availableTables }) db₁.restaurants = _
      rw [hdb₁rs, stepR2, stepE2, stepT2]
    rw [hbrid, hbday]
    have hmain : findTimes db₂ rid (utcDay date) t0.tdid =
        some (releaseV2 b (consumeTime time t0)).availableTimes :=
      findTimes_eq hres2 hRnot hr0rid rfl hE1' hday0 rfl hT1'
        (by rw [hrel])
    rw [hmain, hrel]
    show some (sortTimes ((t0.availableTimes.filter (fun x => !(x == time))) ++ [time])) =
      some l₀
    rw [sortTimes_restore hsorted0 htime0, hl0]
  · -- first revision restores a permutation with the slot at the end
    intro tz u2 db₃ h3
    unfold cancelBookingV1 at h3
    have hfind1 : db₁.bookings.find? (fun x => x.bid == b.bid) = some b := by
      rw [hdb₁bk]
      refine find?_middle ?_ (by simp)
      intro x hx
      rw [beq_eq_false_iff_ne, hbbid]
      exact Nat.ne_of_lt (hg.bidLt x hx)
    rw [hfind1] at h3
    split at h3
    · exact absurd h3 (by simp)
    rename_i b' hbeq
    obtain rfl : b = b' := Option.some.inj hbeq
    split at h3
    · exact absurd h3 (by simp)
    split at h3
    · exact absurd h3 (by simp)
    injection h3 with h3a h3b
    refine ⟨t0.availableTimes.filter (fun x => !(x == time)) ++ [time], ?_, ?_⟩
    · have hrel1 : releaseV1 b (consumeTime time t0) =
          { t0 with availableTimes :=
              t0.availableTimes.filter (fun x => !(x == time)) ++ [time] } := by
        unfold releaseV1
        rw [hbtime]
        rfl
      have stepT1 : updateFirst (tdidMatchV1 b) (releaseV1 b)
          (T₁ ++ consumeTime time t0 :: T₂) =
          T₁ ++ releaseV1 b (consumeTime time t0) :: T₂ :=
        updateFirst_middle
          (fun x hx => by
            simp only [tdidMatchV1, hbtd0]
            rw [beq_eq_false_iff_ne]
            intro hcontr
            exact hmidT.1 x hx (Option.some.inj hcontr))
          (by simp [tdidMatchV1, hbtd0, consumeTime]) _
      have stepE1 : updateFirst (fun e => cancelV1DateMatch tz b.bdate e.edate)
          (fun e => { e with
            tables := updateFirst (tdidMatchV1 b) (releaseV1 b) e.tables })
          (E₁ ++ ({ e0 with tables := T₁ ++ consumeTime time t0 :: T₂ } : DateEntry) :: E₂) =
          E₁ ++ ({ e0 with
            tables := updateFirst (tdidMatchV1 b) (releaseV1 b)
              (T₁ ++ consumeTime time t0 :: T₂) } : DateEntry) :: E₂ :=
        updateFirst_middle
          (fun x hx => by
            have hxnorm := hg.dateNorm r0 hr0mem x
              (by rw [hEsplit]; exact List.mem_append_left _ hx)
            show cancelV1DateMatch tz b.bdate x.edate = false
            rw [Bool.eq_false_iff]
            intro hcontr
            rw [cancelV1DateMatch_day hbnorm hxnorm, hbday] at hcontr
            have hne : (utcDay x.edate == utcDay date) = false := hEnot x hx
            rw [beq_eq_false_iff_ne] at hne
            exact hne hcontr)
          (by
            show cancelV1DateMatch tz b.bdate e0.edate = true
            rw [cancelV1DateMatch_day hbnorm (hg.dateNorm r0 hr0mem e0 he0mem), hbday]
            exact hday0) _
      have stepR1 : updateFirst (fun r => r.rid == b.restaurantId)
          (fun r => { r with
            availableTables :=
              updateFirst (fun e => cancelV1DateMatch tz b.bdate e.edate)
                (fun e => { e with
                  tables := updateFirst (tdidMatchV1 b) (releaseV1 b) e.tables })
                r.availableTables })
          (R₁ ++ ({ r0 with
            availableTables :=
              E₁ ++ ({ e0 with tables := T₁ ++ consumeTime time t0 :: T₂ } : DateEntry) :: E₂,
            timesBookedToday := r0.timesBookedToday + 1 } : Restaurant) :: R₂) =
          R₁ ++ ({ r0 with
            availableTables :=
              updateFirst (fun e => cancelV1DateMatch tz b.bdate e.edate)
                (fun e => { e with
                  tables := updateFirst (tdidMatchV1 b) (releaseV1 b) e.tables })
                (E₁ ++ ({ e0 with
                  tables := T₁ ++ consumeTime time t0 :: T₂ } : DateEntry) :: E₂),
            timesBookedToday := r0.timesBookedToday + 1 } : Restaurant) :: R₂ :=
        updateFirst_middle
          (fun x hx => by
            show (x.rid == b.restaurantId) = false
            rw [hbrid]
            exact hRnot x hx)
          (by
            show (r0.rid == b.restaurantId) = true
            rw [hbrid]
            simp [hr0rid]) _
      have hres3 : db₃.restaurants =
          R₁ ++ ({ r0 with
            availableTables :=
              E₁ ++ ({ e0 with
                tables := T₁ ++ releaseV1 b (consumeTime time t0) :: T₂ } : DateEntry) :: E₂,
            timesBookedToday := r0.timesBookedToday + 1 } : Restaurant) :: R₂ := by
        rw [← h3b]
        show updateFirst (fun r => r.rid == b.restaurantId)
          (fun r => { r with
            availableTables :=
              updateFirst (fun e => cancelV1DateMatch tz b.bdate e.edate)
                (fun e => { e with
                  tables := updateFirst (tdidMatchV1 b) (releaseV1 b) e.tables })
                r.availableTables }) db₁.restaurants = _
        rw [hdb₁rs, stepR1, stepE1, stepT1]
      rw [hbrid, hbday]
      have hmain1 : findTimes db₃ rid (utcDay date) t0.tdid =
          some (releaseV1 b (consumeTime time t0)).availableTimes :=
        findTimes_eq hres3 hRnot hr0rid rfl hE1' hday0 rfl hT1'
          (by rw [hrel1])
      rw [hmain1, hrel1]
    · rw [hl0]
      exact filter_push_perm hnd0 htime0


/-- Witness for the C2 amended theorem: on the sample store, after the sample
booking is created, any successful cancellation (second revision, by the
owner) restores the sample table's slots exactly, and any successful
cancellation under the first revision restores them up to permutation. -/
theorem roundTripRestoresTimes_witness :
    (∀ u db₂, u.uid = 7 →
        cancelBookingV2 0 u (createBooking exReq exDB).2 = (.ok, db₂) →
        findTimes db₂ 1 0 5 = some ["18:00", "18:30"]) ∧
    (∀ tz u2 db₃,
        cancelBookingV1 tz 0 u2 (createBooking exReq exDB).2 = (.ok, db₃) →
        ∃ l₁, findTimes db₃ 1 0 5 = some l₁ ∧ l₁.Perm ["18:00", "18:30"]) := by
  have hg : Good exDB := by constructor <;> decide
  exact roundTripRestoresTimes hg
    (show createBooking exReq exDB =
      (CreateOut.ok ⟨0, 7, 1, 0, "18:00", 4, 4, some 5, BStatus.confirmed⟩,
        (createBooking exReq exDB).2) by decide)
    rfl
    (show findTimes exDB 1 (utcDay 0) 5 = some ["18:00", "18:30"] by decide)
    (by decide)

/-- C3: the controller has no transaction, no version check and no conflict
error: when two CreateBooking requests for the same restaurant, date, time
and table interleave their read and write phases, BOTH succeed. On the sample
store exactly one "18:00" slot exists, yet the interleaving persists two
confirmed bookings for restaurant 1, table definition 5, day 0, time "18:00",
while only one slot is consumed from inventory — double booking instead of
the specified one-success-one-retryable-conflict outcome. -/
theorem concurrentDoubleBooking :
    findTimes exDB 1 0 5 = some ["18:00", "18:30"] ∧
    (interleaved exReq exReq exDB).isSome = true ∧
    (((interleaved exReq exReq exDB).getD exDB).bookings.filter
      (fun b => b.restaurantId == 1 && b.bookedTableDefinitionId == some 5 &&
        utcDay b.bdate == 0 && b.btime == "18:00" &&
        !(isCancelled b.status))).length = 2 ∧
    findTimes ((interleaved exReq exReq exDB).getD exDB) 1 0 5 =
      some ["18:30"] := by
  decide

/-- C4 (counterexample): under the second revision of `cancelBooking` the
second cancellation of an already-cancelled booking does not produce a
dedicated already-cancelled error: it returns the same merged
not-found-or-cancelled result that cancelling a nonexistent booking id
returns. -/
theorem c4_counterexample :
    (cancelBookingV2 0 ⟨7, Role.customer⟩
        (cancelBookingV2 0 ⟨7, Role.customer⟩ (createBooking exReq exDB).2).2).1 =
      CancelOutV2.notFoundOrCancelled ∧
    (cancelBookingV2 99 ⟨7, Role.customer⟩
        (cancelBookingV2 0 ⟨7, Role.customer⟩ (createBooking exReq exDB).2).2).1 =
      CancelOutV2.notFoundOrCancelled := by
  decide

/-- C4 (amended): in a well-formed store holding a cancelled booking, a
repeated CancelBooking on that booking id by an authorized user mutates
nothing under either revision; the first revision answers with the dedicated
already-cancelled error, while the second answers with its merged
not-found-or-cancelled error. -/
theorem secondCancelNoOp {db : DB} (hg : Good db) {b : Booking}
    (hb : b ∈ db.bookings) (hcan : b.status = .cancelled) {u : User}
    (hauth : b.userId = u.uid ∨ u.role = .admin) (tz : Int) :
    cancelBookingV1 tz b.bid u db = (.alreadyCancelled, db) ∧
    cancelBookingV2 b.bid u db = (.notFoundOrCancelled, db) := by
  have huniq : db.bookings.Pairwise (fun a c => a.bid ≠ c.bid) := hg.bidUniq
  have hfind1 : db.bookings.find? (fun x => x.bid == b.bid) = some b :=
    find?_eq_of_mem_key Booking.bid huniq hb (fun x _ => by simp)
  constructor
  · unfold cancelBookingV1
    have hguard : (!(b.userId == u.uid) && !(u.role == Role.admin)) = false := by
      rcases hauth with h | h <;> simp [h]
    simp [hfind1, hguard, hcan, isCancelled]
  · unfold cancelBookingV2
    have hnone : db.bookings.find?
        (fun x => x.bid == b.bid && x.userId == u.uid && !(isCancelled x.status)) =
        none := by
      rw [List.find?_eq_none]
      intro x hx
      by_cases hxb : x.bid = b.bid
      · have hxeq : x = b := eq_of_pairwise_key Booking.bid huniq hb hx hxb
        subst hxeq
        simp [hcan, isCancelled]
      · simp [hxb]
    rw [hnone]

/-- Witness for the C4 amended theorem: on the store obtained by creating and
then cancelling the sample booking, a repeat cancellation by the owner leaves
the store untouched and reports `alreadyCancelled` (first revision) and
`notFoundOrCancelled` (second revision). -/
theorem secondCancelNoOp_witness :
    cancelBookingV1 0 0 ⟨7, Role.customer⟩
        (cancelBookingV2 0 ⟨7, Role.customer⟩ (createBooking exReq exDB).2).2 =
      (.alreadyCancelled,
        (cancelBookingV2 0 ⟨7, Role.customer⟩ (createBooking exReq exDB).2).2) ∧
    cancelBookingV2 0 ⟨7, Role.customer⟩
        (cancelBookingV2 0 ⟨7, Role.customer⟩ (createBooking exReq exDB).2).2 =
      (.notFoundOrCancelled,
        (cancelBookingV2 0 ⟨7, Role.customer⟩ (createBooking exReq exDB).2).2) :=
  secondCancelNoOp (by constructor <;> decide)
    (show (⟨0, 7, 1, 0, "18:00", 4, 4, some 5, BStatus.cancelled⟩ : Booking) ∈
      (cancelBookingV2 0 ⟨7, Role.customer⟩ (createBooking exReq exDB).2).2.bookings
      by decide)
    rfl (Or.inl rfl) 0

/-- C5 (counterexample): an administrator who does not own the booking can
cancel it under the first revision, but under the second revision the same
request is rejected with the merged not-found-or-cancelled error and nothing
is mutated: the `findOne` is keyed on the requesting user's id, so
administrative privilege never reaches other users' bookings. -/
theorem c5_counterexample :
    (cancelBookingV1 0 0 ⟨99, Role.admin⟩ (createBooking exReq exDB).2).1 =
      CancelOutV1.ok ∧
    cancelBookingV2 0 ⟨99, Role.admin⟩ (createBooking exReq exDB).2 =
      (CancelOutV2.notFoundOrCancelled, (createBooking exReq exDB).2) := by
  decide

/-- C5 (amended): under the first revision of `cancelBooking`, a missing
booking id yields the not-found error, a requester who is neither owner nor
admin is rejected without mutation, and a non-owning admin can cancel; under
the second revision, whenever no booking simultaneously carries the requested
id, the requesting user's ownership and a non-cancelled status — which covers
both a missing id and any non-owner, administrators included — the result is
the merged not-found-or-cancelled error with no mutation. -/
theorem cancelAuthSemantics (tz : Int) (bid : Nat) (u : User) (db : DB) :
    (db.bookings.find? (fun x => x.bid == bid) = none →
      cancelBookingV1 tz bid u db = (.notFound, db)) ∧
    (∀ b, db.bookings.find? (fun x => x.bid == bid) = some b →
      (b.userId == u.uid) = false → (u.role == Role.admin) = false →
      cancelBookingV1 tz bid u db = (.notAuthorized, db)) ∧
    (∀ b, db.bookings.find? (fun x => x.bid == bid) = some b →
      isCancelled b.status = false → u.role = Role.admin →
      (cancelBookingV1 tz bid u db).1 = .ok) ∧
    ((∀ x ∈ db.bookings,
        (x.bid == bid && x.userId == u.uid && !(isCancelled x.status)) = false) →
      cancelBookingV2 bid u db = (.notFoundOrCancelled, db)) := by
  refine ⟨?_, ?_, ?_, ?_⟩
  · intro h
    unfold cancelBookingV1
    rw [h]
  · intro b hf hb1 hb2
    unfold cancelBookingV1
    simp [hf, hb1, hb2]
  · intro b hf hc hadmin
    unfold cancelBookingV1
    simp [hf, hc, hadmin]
  · intro h
    unfold cancelBookingV2
    rw [List.find?_eq_none.mpr (fun x hx => by simp [h x hx])]

/-- Witness for the C5 amended theorem on the store holding the sample
booking (id 0, owner 7): unknown id 99 is not found; stranger 8 is rejected
without mutation; admin 99 succeeds under the first revision; under the
second revision the same admin gets the merged error and no mutation. -/
theorem cancelAuthSemantics_witness :
    cancelBookingV1 0 99 ⟨7, Role.customer⟩ (createBooking exReq exDB).2 =
      (.notFound, (createBooking exReq exDB).2) ∧
    cancelBookingV1 0 0 ⟨8, Role.customer⟩ (createBooking exReq exDB).2 =
      (.notAuthorized, (createBooking exReq exDB).2) ∧
    (cancelBookingV1 0 0 ⟨99, Role.admin⟩ (createBooking exReq exDB).2).1 = .ok ∧
    cancelBookingV2 0 ⟨99, Role.admin⟩ (createBooking exReq exDB).2 =
      (.notFoundOrCancelled, (createBooking exReq exDB).2) :=
  ⟨(cancelAuthSemantics 0 99 ⟨7, Role.customer⟩ (createBooking exReq exDB).2).1
      (by decide),
    (cancelAuthSemantics 0 0 ⟨8, Role.customer⟩ (createBooking exReq exDB).2).2.1
      ⟨0, 7, 1, 0, "18:00", 4, 4, some 5, BStatus.confirmed⟩
      (by decide) (by decide) (by decide),
    (cancelAuthSemantics 0 0 ⟨99, Role.admin⟩ (createBooking exReq exDB).2).2.2.1
      ⟨0, 7, 1, 0, "18:00", 4, 4, some 5, BStatus.confirmed⟩
      (by decide) (by decide) rfl,
    (cancelAuthSemantics 0 0 ⟨99, Role.admin⟩ (createBooking exReq exDB).2).2.2.2
      (by decide)⟩

/-- C6: the availability matcher of `createBooking`. With a valid request
(all fields present, positive party size, restaurant found): if no
date-availability entry matches the requested UTC day the controller fails
with noAvailabilityForDate; if an entry is found, then for any decomposition
of its table list into earlier tables that all fail the eligibility test
(tableSize ≥ partySize and exact string membership of the requested time) and
a first table that passes it, the controller succeeds and books exactly that
table; and if every table fails the test it fails with noSuitableTable. -/
theorem matcherFirstFit {req : CreateReq} {db : DB} {rid : Nat} {date : Int}
    {time : String} {n : Int}
    (hrid : req.restaurantId = some rid) (hdate : req.rdate = some date)
    (htime : req.rtime = some time) (htne : (time == "") = false)
    (hjs : jsTruthy req.rpartySize = true) (hn : jsToInt req.rpartySize = some n)
    (hpos : 0 < n) {r : Restaurant}
    (hfr : db.restaurants.find? (fun x => x.rid == rid) = some r) :
    ((∀ x ∈ r.availableTables, utcDay x.edate ≠ utcDay date) →
      createRead req db = .fail .noAvailabilityForDate) ∧
    (∀ e, r.availableTables.find? (fun x => createDateMatch date x.edate) = some e →
      (∀ T₁ t T₂, e.tables = T₁ ++ t :: T₂ →
        (∀ x ∈ T₁, ¬(n ≤ x.tableSize ∧ time ∈ x.availableTimes)) →
        n ≤ t.tableSize → time ∈ t.availableTimes →
        ∃ p, createRead req db = .ok p ∧ p.planTdid = t.tdid ∧
          p.planTableSize = t.tableSize) ∧
      ((∀ x ∈ e.tables, ¬(n ≤ x.tableSize ∧ time ∈ x.availableTimes)) →
        createRead req db = .fail .noSuitableTable)) := by
  constructor
  · intro h
    have hnone : r.availableTables.find? (fun x => createDateMatch date x.edate) =
        none := by
      rw [List.find?_eq_none]
      intro x hx
      simp only [createDateMatch, beq_iff_eq]
      exact h x hx
    unfold createRead
    simp [hrid, hdate, htime, htne, hjs, hn, hfr, hnone, not_le.mpr hpos]
  · intro e hfe
    constructor
    · intro T₁ t T₂ hT hT1 hle hmem
      have h1 : ∀ x ∈ T₁, suitableFor n time x = false := by
        intro x hx
        rw [Bool.eq_false_iff]
        intro hc
        rw [suitableFor, Bool.and_eq_true, decide_eq_true_eq] at hc
        exact hT1 x hx ⟨hc.1, by simpa using hc.2⟩
      have h2 : suitableFor n time t = true := by
        rw [suitableFor, Bool.and_eq_true, decide_eq_true_eq]
        exact ⟨hle, by simpa using hmem⟩
      have hfind : e.tables.find? (suitableFor n time) = some t := by
        rw [hT]
        exact find?_middle h1 h2
      refine ⟨⟨req.userId, rid, utcDay date, time, n, t.tdid, t.tableSize,
        updateFirst (fun e2 => createDateMatch date e2.edate)
          (fun e2 => { e2 with
            tables := updateFirst (suitableFor n time) (consumeTime time) e2.tables })
          r.availableTables⟩, ?_, rfl, rfl⟩
      unfold createRead
      simp [hrid, hdate, htime, htne, hjs, hn, hfr, hfe, hfind, not_le.mpr hpos]
    · intro hall
      have hnone : e.tables.find? (suitableFor n time) = none := by
        rw [List.find?_eq_none]
        intro x hx
        rw [suitableFor]
        simp only [Bool.and_eq_true, decide_eq_true_eq, not_and]
        intro hle hc
        exact hall x hx ⟨hle, by simpa using hc⟩
      unfold createRead
      simp [hrid, hdate, htime, htne, hjs, hn, hfr, hfe, hnone, not_le.mpr hpos]

/-- Witness for C6 on the sample store: party of four books table 5 (the
first and only fit), party of five fails with noSuitableTable, and a request
for day 1 (for which no entry exists) fails with noAvailabilityForDate. -/
theorem matcherFirstFit_witness :
    (∃ p, createRead exReq exDB = .ok p ∧ p.planTdid = 5 ∧ p.planTableSize = 4) ∧
    createRead ⟨7, some 1, some 0, some "18:00", JSVal.num 5⟩ exDB =
      .fail .noSuitableTable ∧
    createRead ⟨7, some 1, some 1440, some "18:00", JSVal.num 4⟩ exDB =
      .fail .noAvailabilityForDate :=
  ⟨((@matcherFirstFit exReq exDB 1 0 "18:00" 4 rfl rfl rfl (by decide) (by decide)
      (by decide) (by decide) exRestaurant (by decide)).2 ⟨0, [exTable]⟩
      (by decide)).1 [] exTable [] rfl (by decide) (by decide) (by decide),
    ((@matcherFirstFit ⟨7, some 1, some 0, some "18:00", JSVal.num 5⟩ exDB 1 0
      "18:00" 5 rfl rfl rfl (by decide) (by decide) (by decide) (by decide)
      exRestaurant (by decide)).2 ⟨0, [exTable]⟩ (by decide)).2 (by decide),
    (@matcherFirstFit ⟨7, some 1, some 1440, some "18:00", JSVal.num 4⟩ exDB 1
      1440 "18:00" 4 rfl rfl rfl (by decide) (by decide) (by decide) (by decide)
      exRestaurant (by decide)).1 (by decide)⟩

/-- C7 (counterexample): a numeric party size of 0 never reaches the
invalid-party-size check: JavaScript truthiness classifies 0 as missing, so
the controller reports missing fields instead. -/
theorem c7_counterexample :
    createRead ⟨7, some 1, some 0, some "18:00", JSVal.num 0⟩ exDB =
      .fail .missingFields ∧
    CreateErr.missingFields ≠ CreateErr.invalidPartySize := by
  decide

/-- C7 (amended): with the other three fields present, a numeric party size
of 0 is swallowed by the truthiness-based missing-fields check (only the
string "0" reaches the invalid-party-size error), a negative party size
yields the invalid-party-size error, a table whose size equals the party
size is eligible to the matcher, and a table whose size is one less than the
party size is not. -/
theorem partySizeBoundaries {req : CreateReq} {db : DB} {rid : Nat} {date : Int}
    {time : String} (hrid : req.restaurantId = some rid)
    (hdate : req.rdate = some date) (htime : req.rtime = some time)
    (htne : (time == "") = false) :
    (req.rpartySize = .num 0 → createRead req db = .fail .missingFields) ∧
    (req.rpartySize = .str "0" → createRead req db = .fail .invalidPartySize) ∧
    (∀ n : Int, n < 0 → req.rpartySize = .num n →
      createRead req db = .fail .invalidPartySize) ∧
    (∀ n : Int, 0 < n → ∀ t : TableDef, t.tableSize = n →
      time ∈ t.availableTimes → suitableFor n time t = true) ∧
    (∀ n : Int, ∀ t : TableDef, n = t.tableSize + 1 →
      suitableFor n time t = false) := by
  refine ⟨?_, ?_, ?_, ?_, ?_⟩
  · intro h
    unfold createRead
    simp [hrid, hdate, htime, h, jsTruthy]
  · intro h
    have hj : jsToInt (JSVal.str "0") = some 0 := by decide
    unfold createRead
    simp [hrid, hdate, htime, htne, h, jsTruthy, hj]
  · intro n hn h
    unfold createRead
    simp [hrid, hdate, htime, htne, h, jsTruthy, jsToInt, hn.ne, hn.le]
  · intro n hn t ht hmem
    rw [suitableFor, Bool.and_eq_true, decide_eq_true_eq]
    exact ⟨le_of_eq ht.symm, by simpa using hmem⟩
  · intro n t h
    rw [Bool.eq_false_iff]
    intro hc
    rw [suitableFor, Bool.and_eq_true, decide_eq_true_eq] at hc
    rw [h] at hc
    exact absurd hc.1 (by omega)

/-- Witness for the C7 amended theorem: string "0" and numeric -2 hit the
invalid-party-size error, a party of four fits the four-seat sample table,
and a party of five does not. -/
theorem partySizeBoundaries_witness :
    createRead ⟨7, some 1, some 0, some "18:00", JSVal.str "0"⟩ exDB =
      .fail .invalidPartySize ∧
    createRead ⟨7, some 1, some 0, some "18:00", JSVal.num (-2)⟩ exDB =
      .fail .invalidPartySize ∧
    suitableFor 4 "18:00" exTable = true ∧
    suitableFor 5 "18:00" exTable = false :=
  ⟨(@partySizeBoundaries ⟨7, some 1, some 0, some "18:00", JSVal.str "0"⟩ exDB 1 0
      "18:00" rfl rfl rfl (by decide)).2.1 rfl,
    (@partySizeBoundaries ⟨7, some 1, some 0, some "18:00", JSVal.num (-2)⟩ exDB
      1 0 "18:00" rfl rfl rfl (by decide)).2.2.1 (-2) (by decide) rfl,
    (@partySizeBoundaries exReq exDB 1 0 "18:00" rfl rfl rfl (by decide)).2.2.2.1
      4 (by decide) exTable rfl (by decide),
    (@partySizeBoundaries exReq exDB 1 0 "18:00" rfl rfl rfl (by decide)).2.2.2.2
      5 exTable (by decide)⟩

theorem filter_not_isEmpty_iff {α} {p : α → Bool} {l : List α} :
    (!(l.filter p).isEmpty) = true ↔ ∃ x ∈ l, p x = true := by
  constructor
  · intro hne
    cases hfp : l.filter p with
    | nil => rw [hfp] at hne; simp at hne
    | cons x xs =>
      have hx : x ∈ l.filter p := by
        rw [hfp]
        exact List.mem_cons_self _ _
      rw [List.mem_filter] at hx
      exact ⟨x, hx.1, hx.2⟩
  · rintro ⟨x, hx, hpx⟩
    have hmem : x ∈ l.filter p := List.mem_filter.mpr ⟨hx, hpx⟩
    cases hfp : l.filter p with
    | nil => rw [hfp] at hmem; cases hmem
    | cons y ys => rfl

theorem tableQualifies_iff {sizeOpt : Option Int} {a bstr : String} {t : TableDef} :
    tableQualifies sizeOpt a bstr t = true ↔
      (∀ n, sizeOpt = some n → n ≤ t.tableSize) ∧
      ∃ s ∈ t.availableTimes, slotInWindow a bstr s = true := by
  unfold tableQualifies
  rw [Bool.and_eq_true, filter_not_isEmpty_iff]
  cases sizeOpt with
  | none => simp
  | some n => simp

theorem restaurantQualifies_iff {r : Restaurant} {day : Int} {sizeOpt : Option Int}
    {a bstr : String}
    (huniq : r.availableTables.Pairwise (fun x y => utcDay x.edate ≠ utcDay y.edate)) :
    restaurantQualifies day sizeOpt a bstr r = true ↔
      ∃ e ∈ r.availableTables, e.edate = day * 1440 ∧
        ∃ t ∈ e.tables, tableQualifies sizeOpt a bstr t = true := by
  unfold restaurantQualifies
  cases hfilt : r.availableTables.filter (fun e => searchDateMatch day e.edate) with
  | nil =>
    constructor
    · intro h
      exact absurd h (by simp)
    · rintro ⟨e, he, hed, -⟩
      have hmem : e ∈ r.availableTables.filter (fun e => searchDateMatch day e.edate) :=
        List.mem_filter.mpr ⟨he, by simp [searchDateMatch, hed]⟩
      rw [hfilt] at hmem
      cases hmem
  | cons e rest =>
    have hemem : e ∈ r.availableTables.filter (fun e => searchDateMatch day e.edate) := by
      rw [hfilt]
      exact List.mem_cons_self _ _
    rw [List.mem_filter] at hemem
    have hed : e.edate = day * 1440 := by simpa [searchDateMatch] using hemem.2
    show (!((e.tables.filter (tableQualifies sizeOpt a bstr)).isEmpty)) = true ↔ _
    rw [filter_not_isEmpty_iff]
    constructor
    · rintro ⟨t, htm, htq⟩
      exact ⟨e, hemem.1, hed, t, htm, htq⟩
    · rintro ⟨e', he', hed', t, htm, htq⟩
      have heq : e' = e := eq_of_pairwise_key (fun x => utcDay x.edate) huniq
        hemem.1 he' (by show utcDay e'.edate = utcDay e.edate; rw [hed', hed])
      subst heq
      exact ⟨t, htm, htq⟩

/-- C8 (counterexample): an unapproved restaurant is never returned, even
when it has a table of the right size with a slot inside the ±30-minute
window for the requested date — the claimed availability condition is not
sufficient for inclusion, because every search first passes the approval and
location `$match`. -/
theorem c8_counterexample :
    searchRestaurants ⟨none, some 0, some "18:00", none⟩
      ⟨[⟨1, false, "San Jose", "95112", [⟨0, [exTable]⟩], 0⟩], [], 0⟩ =
      SearchRes.ok [] ∧
    tableQualifies none (formatHHMM ((1080 + 1410) % 1440))
      (formatHHMM ((1080 + 30) % 1440)) exTable = true ∧
    parseHHMM "18:00" = some 1080 := by
  decide

/-- C8 (amended): for a search carrying a date (UTC day index `day`) and a
nonempty time string, an unparseable time yields the invalid-time-format
error; with a parseable time, a restaurant of a well-formed store is in the
result if and only if it passes the initial approval-and-location match AND
it has a date-availability entry stored at exactly the UTC midnight instant
of `day` containing a table that satisfies the effective size filter (absent
or invalid party size imposes no constraint) and owns at least one slot
inside the inclusive ±30-minute window around the requested time, computed
in `HH:mm` string space. -/
theorem searchMembership {db : DB} (hg : Good db) {q : SearchQuery} {day : Int}
    {ts : String} (hd : q.qdate = some day) (ht : q.qtime = some ts)
    (hne : (ts == "") = false) :
    (parseHHMM ts = none → searchRestaurants q db = .invalidTimeFormat) ∧
    (∀ m, parseHHMM ts = some m →
      ∃ L, searchRestaurants q db = .ok L ∧
        ∀ r, r ∈ L ↔ r ∈ db.restaurants ∧ initialMatch q r = true ∧
          ∃ e ∈ r.availableTables, e.edate = day * 1440 ∧
            ∃ t ∈ e.tables,
              (∀ n, effectiveSizeFilter q = some n → n ≤ t.tableSize) ∧
              ∃ s ∈ t.availableTimes,
                slotInWindow (formatHHMM ((m + 1410) % 1440))
                  (formatHHMM ((m + 30) % 1440)) s = true) := by
  constructor
  · intro hp
    unfold searchRestaurants
    simp [hd, ht, hne, hp]
  · intro m hm
    refine ⟨db.restaurants.filter (fun r =>
      initialMatch q r &&
      restaurantQualifies day (effectiveSizeFilter q)
        (formatHHMM ((m + 1410) % 1440)) (formatHHMM ((m + 30) % 1440)) r), ?_, ?_⟩
    · unfold searchRestaurants
      simp [hd, ht, hne, hm]
    · intro r
      rw [List.mem_filter, Bool.and_eq_true]
      constructor
      · rintro ⟨hrmem, hinit, hq⟩
        refine ⟨hrmem, hinit, ?_⟩
        rw [restaurantQualifies_iff (hg.dayUniq r hrmem)] at hq
        obtain ⟨e, he, hed, t, htm, htq⟩ := hq
        rw [tableQualifies_iff] at htq
        exact ⟨e, he, hed, t, htm, htq.1, htq.2⟩
      · rintro ⟨hrmem, hinit, e, he, hed, t, htm, hsz, s, hs, hw⟩
        refine ⟨hrmem, hinit, ?_⟩
        rw [restaurantQualifies_iff (hg.dayUniq r hrmem)]
        exact ⟨e, he, hed, t, htm, tableQualifies_iff.mpr ⟨hsz, s, hs, hw⟩⟩

/-- Witness for the C8 amended theorem on the sample store for a search of
day 0 at 18:00 (window 17:30–18:30) with no party size. -/
theorem searchMembership_witness :
    ∃ L, searchRestaurants ⟨none, some 0, some "18:00", none⟩ exDB = .ok L ∧
      ∀ r, r ∈ L ↔ r ∈ exDB.restaurants ∧
        initialMatch ⟨none, some 0, some "18:00", none⟩ r = true ∧
        ∃ e ∈ r.availableTables, e.edate = 0 * 1440 ∧
          ∃ t ∈ e.tables,
            (∀ n, effectiveSizeFilter ⟨none, some 0, some "18:00", none⟩ = some n →
              n ≤ t.tableSize) ∧
            ∃ s ∈ t.availableTimes,
              slotInWindow (formatHHMM ((1080 + 1410) % 1440))
                (formatHHMM ((1080 + 30) % 1440)) s = true :=
  (searchMembership (by constructor <;> decide) rfl rfl (by decide)).2 1080
    (by decide)

/-- C9 (counterexample): the search pipeline does NOT normalize the stored
date before comparing: a date-availability entry stored at UTC noon of day 0
is found by createBooking's day-normalized lookup (the booking succeeds) but
a search for the same UTC day compares the raw stored instant against UTC
midnight with `$eq` and misses the approved restaurant entirely. -/
theorem c9_counterexample :
    (createBooking ⟨7, some 1, some 0, some "18:00", JSVal.num 4⟩ exDBNoon).1 =
      CreateOut.ok ⟨0, 7, 1, 0, "18:00", 4, 4, some 5, .confirmed⟩ ∧
    utcDay 720 = utcDay 0 ∧
    initialMatch ⟨none, some 0, some "18:00", none⟩ exRestaurantNoon = true ∧
    searchRestaurants ⟨none, some 0, some "18:00", none⟩ exDBNoon =
      SearchRes.ok [] := by
  decide

/-- C9 (amended): when both the input instant and the stored instant are
normalized to UTC midnight of their day, all four date-entry lookups of the
code base — createBooking's day comparison, both cancellation repairs and the
search pipeline's `$eq` — coincide with equality of UTC days. Without stored
normalization the search comparison is an exact-instant match and can reject
an entry of the very same UTC day (c9_counterexample). -/
theorem dateLookupNormalization (input edate tz : Int)
    (hin : input = utcDay input * 1440) (hed : edate = utcDay edate * 1440) :
    (createDateMatch input edate = true ↔ utcDay edate = utcDay input) ∧
    (cancelV1DateMatch tz input edate = true ↔ utcDay edate = utcDay input) ∧
    (cancelV2DateMatch input edate = true ↔ utcDay edate = utcDay input) ∧
    (searchDateMatch (utcDay input) edate = true ↔ utcDay edate = utcDay input) := by
  refine ⟨by simp [createDateMatch], cancelV1DateMatch_day hin hed,
    by simp [cancelV2DateMatch], ?_⟩
  rw [searchDateMatch, beq_iff_eq]
  constructor
  · intro h
    rw [h, utcDay_mul]
  · intro h
    rw [hed, h]

/-- Witness for the C9 amended theorem at UTC midnight of day 0 with a
server timezone of UTC-5. -/
theorem dateLookupNormalization_witness :
    (createDateMatch 0 0 = true ↔ utcDay 0 = utcDay 0) ∧
    (cancelV1DateMatch (-300) 0 0 = true ↔ utcDay 0 = utcDay 0) ∧
    (cancelV2DateMatch 0 0 = true ↔ utcDay 0 = utcDay 0) ∧
    (searchDateMatch (utcDay 0) 0 = true ↔ utcDay 0 = utcDay 0) :=
  dateLookupNormalization 0 0 (-300) (by decide) (by decide)

/-- C10: when at most one of date and time is supplied, `searchRestaurants`
skips the whole availability branch: the result is the unfiltered listing of
restaurants passing the initial approval-and-location match — identical to
the listing when both are absent — and the invalid-time-format error is
unreachable, no matter what the supplied value is. -/
theorem partialDateTimeIgnored (q : SearchQuery) (db : DB) :
    (q.qtime = none →
      searchRestaurants q db = .ok (db.restaurants.filter (initialMatch q))) ∧
    (q.qdate = none →
      searchRestaurants q db = .ok (db.restaurants.filter (initialMatch q))) ∧
    (∀ loc2 d ts ps2,
      searchRestaurants ⟨loc2, some d, none, ps2⟩ db =
        searchRestaurants ⟨loc2, none, none, ps2⟩ db ∧
      searchRestaurants ⟨loc2, none, some ts, ps2⟩ db =
        searchRestaurants ⟨loc2, none, none, ps2⟩ db) := by
  obtain ⟨loc, qd, qt, ps⟩ := q
  refine ⟨?_, ?_, ?_⟩
  · intro h
    subst h
    cases qd <;> rfl
  · intro h
    subst h
    cases qt <;> rfl
  · intro loc2 d ts ps2
    exact ⟨rfl, rfl⟩

/-- Witness for C10 on the sample store: a date-only search and a time-only
search both return the initial-match listing, and the date-only result
coincides with the result of supplying neither. -/
theorem partialDateTimeIgnored_witness :
    searchRestaurants ⟨none, some 0, none, none⟩ exDB =
      .ok (exDB.restaurants.filter (initialMatch ⟨none, some 0, none, none⟩)) ∧
    searchRestaurants ⟨none, none, some "18:00", none⟩ exDB =
      .ok (exDB.restaurants.filter (initialMatch ⟨none, none, some "18:00", none⟩)) ∧
    searchRestaurants ⟨none, some 0, none, none⟩ exDB =
      searchRestaurants ⟨none, none, none, none⟩ exDB :=
  ⟨(partialDateTimeIgnored ⟨none, some 0, none, none⟩ exDB).1 rfl,
    (partialDateTimeIgnored ⟨none, none, some "18:00", none⟩ exDB).2.1 rfl,
    ((partialDateTimeIgnored ⟨none, some 0, none, none⟩ exDB).2.2
      none 0 "18:00" none).1⟩
